import Mathlib

/-!
# prouter: request-to-file resolution

A shallow embedding of the HTTP handler of `main.go` (the closure `handler` and the
function `renderMarkdown`) together with the parts of the Go standard library it calls
(`strings`, `path`, `os`, `path/filepath.WalkDir`, `net/http.FileServer`), followed by the
properties of the resolution algorithm.

Go strings are byte sequences and are modelled as `List Char`.  The file system is a finite
tree; the response is the ordered list of the writes the handler performs on its
`http.ResponseWriter`.
-/

namespace Prouter

/-- A Go string. -/
abbrev Str := List Char

/-! ## Package `strings` -/

/-- `strings.HasPrefix(s, pre)`. -/
def stringsHasPrefix (s pre : Str) : Bool := pre.isPrefixOf s

/-- `strings.HasSuffix(s, suf)`. -/
def stringsHasSuffix (s suf : Str) : Bool := suf.isSuffixOf s

/-- `strings.TrimPrefix(s, pre)`: `s` without the leading `pre`, or `s` itself when it
does not start with `pre`. -/
def stringsTrimPrefix (s pre : Str) : Str :=
  if stringsHasPrefix s pre then s.drop pre.length else s

/-- `strings.TrimSuffix(s, suf)`: `s` without the trailing `suf`, or `s` itself when it
does not end with `suf`. -/
def stringsTrimSuffix (s suf : Str) : Str :=
  if stringsHasSuffix s suf then s.take (s.length - suf.length) else s

/-- `strings.Split(s, sep)` for a one-byte separator: the pieces of `s` between the
occurrences of `sep`; always at least one piece. -/
def stringsSplit : Str → Char → List Str
  | [], _ => [[]]
  | c :: cs, sep =>
    if c = sep then [] :: stringsSplit cs sep
    else
      match stringsSplit cs sep with
      | [] => [[c]]
      | h :: t => (c :: h) :: t

/-- `strings.Join(elems, sep)`. -/
def stringsJoin (elems : List Str) (sep : Str) : Str := sep.intercalate elems

/-! ## Package `path` -/

/-- One step of `path.Clean` on the stack of kept elements (most recent first): empty and
`.` elements are dropped, `..` removes the preceding real element, is dropped at the root
of a rooted path and is kept at the start of a relative one. -/
def cleanStep (rooted : Bool) (stack : List Str) (c : Str) : List Str :=
  if c = [] ∨ c = ['.'] then stack
  else if c = ['.', '.'] then
    match stack with
    | [] => if rooted then [] else [c]
    | top :: rest => if top = ['.', '.'] then c :: stack else rest
  else c :: stack

/-- `path.Clean(p)`: the shortest path equivalent to `p` by lexical processing (single
slashes, no `.` elements, no inner `..` elements, no `..` at the root, no trailing slash;
the empty path becomes `.`). -/
def pathClean (p : Str) : Str :=
  if p = [] then ['.']
  else
    let rooted := stringsHasPrefix p ['/']
    let kept := ((stringsSplit p '/').foldl (cleanStep rooted) []).reverse
    let body := stringsJoin kept ['/']
    if rooted then '/' :: body
    else if body = [] then ['.'] else body

/-- `path.Join(elem...)`: the elements from the first non-empty one on, separated by
slashes and cleaned; the empty string when all are empty.  `filepath.Join` is the same
function on a system whose separator is the slash. -/
def pathJoin : List Str → Str
  | [] => []
  | e :: es => if e = [] then pathJoin es else pathClean (stringsJoin (e :: es) ['/'])

/-- The scan of `path.Ext` from the end of the path: `rev` is what is left to scan (last
byte first), `acc` what was scanned. -/
def pathExtScan : Str → Str → Str
  | [], _ => []
  | c :: rev, acc =>
    if c = '/' then []
    else if c = '.' then '.' :: acc
    else pathExtScan rev (c :: acc)

/-- `path.Ext(p)`: the suffix beginning at the final dot of the final slash-separated
element of `p`; empty if there is no dot. -/
def pathExt (p : Str) : Str := pathExtScan p.reverse []

/-- Removal of the trailing slashes of a path given last byte first. -/
def dropSlashes : Str → Str
  | [] => []
  | c :: rev => if c = '/' then dropSlashes rev else c :: rev

/-- `path.Base(p)`: the last element of `p`, trailing slashes removed first; `.` for the
empty path and `/` for a path of slashes only. -/
def pathBase (p : Str) : Str :=
  if p = [] then ['.']
  else
    let last := ((dropSlashes p.reverse).takeWhile (fun c => c ≠ '/')).reverse
    if last = [] then ['/'] else last

/-! ## Errors -/

/-- The system errors the file-system calls report. -/
inductive Errno where
  | ENOENT
  | ENOTDIR
  | EISDIR
  | EACCES
  | other (text : Str)
  deriving DecidableEq, Repr

/-- The text of a system error. -/
def Errno.text : Errno → Str
  | .ENOENT => "no such file or directory".toList
  | .ENOTDIR => "not a directory".toList
  | .EISDIR => "is a directory".toList
  | .EACCES => "permission denied".toList
  | .other t => t

/-- Go `error` values: the sentinels of `io/fs` (`fs.SkipDir`, `fs.SkipAll`,
`fs.ErrNotExist`), the `*fs.PathError` of the `os` calls, and `errors.New(text)`. -/
inductive GoError where
  | skipDir
  | skipAll
  | errNotExist
  | pathError (op : Str) (path : Str) (errno : Errno)
  | new (text : Str)
  deriving DecidableEq, Repr

/-- The method `Error()` of an error value. -/
def GoError.Error : GoError → Str
  | .skipDir => "skip this directory".toList
  | .skipAll => "skip everything and stop the walk".toList
  | .errNotExist => "file does not exist".toList
  | .pathError op path errno => op ++ [' '] ++ path ++ [':', ' '] ++ errno.text
  | .new text => text

/-- `os.IsNotExist(err)` on the error result of a call (`none` is the nil error). -/
def osIsNotExist : Option GoError → Bool
  | some (.pathError _ _ .ENOENT) => true
  | some .errNotExist => true
  | _ => false

/-- `os.IsPermission(err)`. -/
def osIsPermission : Option GoError → Bool
  | some (.pathError _ _ .EACCES) => true
  | _ => false

/-! ## The file system -/

/-- A file-system entry: a file with its bytes (and the error reading it reports, if any),
or a directory with the entries `ReadDir` returns for it, in that order (and the error
`ReadDir` reports for it, if any). -/
inductive Node where
  | file (name : Str) (readErr : Option Errno) (data : Str)
  | dir (name : Str) (readErr : Option Errno) (entries : List Node)

/-- The name of an entry. -/
def Node.name : Node → Str
  | .file n _ _ => n
  | .dir n _ _ => n

/-- Whether the entry is a directory: `d.IsDir()`. -/
def Node.IsDir : Node → Bool
  | .file _ _ _ => false
  | .dir _ _ _ => true

/-- The state of the file system a request is served from: the tree below `/` and the
working directory of the process as the list of its path elements. -/
structure FileSystem where
  root : Node
  cwd : List Str

/-- The entry called `name` in a directory listing. -/
def lookupEntry (name : Str) : List Node → Option Node
  | [] => none
  | n :: ns => if n.name = name then some n else lookupEntry name ns

/-- The entry reached from `n` along the path elements `cs`. -/
def descend : List Str → Node → Except Errno Node
  | [], n => .ok n
  | _ :: _, .file _ _ _ => .error .ENOTDIR
  | c :: cs, .dir _ _ es =>
    match lookupEntry c es with
    | none => .error .ENOENT
    | some n => descend cs n

/-- One step of the lexical resolution of a path against the working directory, on the
stack of elements from `/` (most recent first). -/
def resolveStep (stack : List Str) (c : Str) : List Str :=
  if c = [] ∨ c = ['.'] then stack
  else if c = ['.', '.'] then stack.tail
  else c :: stack

/-- The entry a path names (there are no symbolic links). -/
def resolve (fsys : FileSystem) (p : Str) : Except Errno Node :=
  if p = [] then .error .ENOENT
  else
    let start := if stringsHasPrefix p ['/'] then [] else fsys.cwd.reverse
    descend ((stringsSplit p '/').foldl resolveStep start).reverse fsys.root

/-- `os.Stat(name)` (and `os.Lstat`): the entry, or the error. -/
def osStat (fsys : FileSystem) (name : Str) : Except GoError Node :=
  match resolve fsys name with
  | .ok n => .ok n
  | .error e => .error (.pathError "stat".toList name e)

/-- The error result of a call. -/
def errOf {α : Type} : Except GoError α → Option GoError
  | .ok _ => none
  | .error e => some e

/-- `os.ReadDir(name)`: the entries read and the error, if any. -/
def osReadDir (fsys : FileSystem) (name : Str) : List Node × Option GoError :=
  match resolve fsys name with
  | .error e => ([], some (.pathError "open".toList name e))
  | .ok (.file _ _ _) => ([], some (.pathError "readdirent".toList name .ENOTDIR))
  | .ok (.dir _ none es) => (es, none)
  | .ok (.dir _ (some e) es) => (es, some (.pathError "open".toList name e))

/-- `os.ReadFile(name)`. -/
def osReadFile (fsys : FileSystem) (name : Str) : Except GoError Str :=
  match resolve fsys name with
  | .error e => .error (.pathError "open".toList name e)
  | .ok (.dir _ _ _) => .error (.pathError "read".toList name .EISDIR)
  | .ok (.file _ none data) => .ok data
  | .ok (.file _ (some e) _) => .error (.pathError "read".toList name e)

/-! ## `filepath.WalkDir` -/

/-- What the walk tells its callback about an entry (`fs.DirEntry`). -/
structure DirEntry where
  Name : Str
  IsDir : Bool
  deriving DecidableEq, Repr

/-- A callback of the walk (`fs.WalkDirFunc`), threading the state `σ` it acts on: it gets
the path, the entry (nil when the root could not be inspected) and the error met on the
way, and answers with nil or an error. -/
abbrev WalkDirFunc (σ : Type) := Str → Option DirEntry → Option GoError → σ → σ × Option GoError

mutual
/-- The recursive descent `walkDir(path, d, fn)` of `path/filepath`: the callback is called
on the entry; a directory is then read (a read error is reported to the callback in a second
call) and its entries are walked in order, under the joined path. -/
def walkDir {σ : Type} (fn : WalkDirFunc σ) (path : Str) (n : Node) (s : σ) :
    σ × Option GoError :=
  match n with
  | .file name _ _ => fn path (some ⟨name, false⟩) none s
  | .dir name readErr entries =>
    match fn path (some ⟨name, true⟩) none s with
    | (s1, some .skipDir) => (s1, none)
    | (s1, some e) => (s1, some e)
    | (s1, none) =>
      match readErr with
      | none => walkEntries fn path entries s1
      | some errno =>
        match fn path (some ⟨name, true⟩)
            (some (.pathError "open".toList path errno)) s1 with
        | (s2, some .skipDir) => (s2, none)
        | (s2, some e) => (s2, some e)
        | (s2, none) => walkEntries fn path entries s2
/-- The loop of `walkDir` over the entries of a directory. -/
def walkEntries {σ : Type} (fn : WalkDirFunc σ) (path : Str) (entries : List Node) (s : σ) :
    σ × Option GoError :=
  match entries with
  | [] => (s, none)
  | n :: rest =>
    match walkDir fn (pathJoin [path, n.name]) n s with
    | (s1, some .skipDir) => (s1, none)
    | (s1, some e) => (s1, some e)
    | (s1, none) => walkEntries fn path rest s1
end

/-- `filepath.WalkDir(root, fn)`. -/
def filepathWalkDir {σ : Type} (fsys : FileSystem) (root : Str) (fn : WalkDirFunc σ) (s : σ) :
    σ × Option GoError :=
  let res :=
    match osStat fsys root with
    | .error e => fn root none (some e) s
    | .ok n => walkDir fn root n s
  match res with
  | (s1, some .skipDir) => (s1, none)
  | (s1, some .skipAll) => (s1, none)
  | other => other

/-! ## The response -/

/-- A write of the handler on its `http.ResponseWriter`. -/
inductive Event where
  /-- The call `http.Error(w, body, code)`. -/
  | httpError (body : Str) (code : Nat)
  /-- The call `t.Execute(w, vars)` of the HTML template on `Title` and `Content`. -/
  | templateExecute (title : Str) (content : Str)
  /-- The call `http.ServeFile(w, r, name)`. -/
  | serveFile (name : Str)
  /-- The call `http.FileServer(http.Dir(root)).ServeHTTP(w, r)`. -/
  | fileServer (root : Str)
  deriving DecidableEq, Repr

/-- The response writer: the writes made so far, in order. -/
abbrev ResponseWriter := List Event

/-- The request: the `Host` header and `r.URL.Path`. -/
structure Request where
  Host : Str
  Path : Str

/-- The external capabilities: the Markdown renderer (parser and HTML renderer of
`gomarkdown`) and the outcome of writing the executed template to the connection. -/
structure Capabilities where
  markdown : Str → Str
  executeErr : Str → Str → Option GoError

/-! ## `renderMarkdown` and the handler -/

/-- The function `renderMarkdown(filePath, w, t)` (main.go:235-280). -/
def renderMarkdown (caps : Capabilities) (fsys : FileSystem) (filePath : Str)
    (w : ResponseWriter) : ResponseWriter :=
  match osReadFile fsys filePath with
  | .error err =>
    w ++ [.httpError ("Failed to read markdown file: ".toList ++ err.Error) 500]
  | .ok data =>
    let html := caps.markdown data
    let title := stringsTrimSuffix (pathBase filePath) (pathExt filePath)
    let w1 := w ++ [.templateExecute title html]
    match caps.executeErr title html with
    | some err => w1 ++ [.httpError ("Failed to write HTML response: ".toList ++ err.Error) 500]
    | none => w1

/-- The tenant identifier: `strings.Split(r.Host, ".")[0]` (main.go:114). -/
def subdomainOf (host : Str) : Str := (stringsSplit host '.').headD []

/-- The tenant root: `path.Join(servePath, subdomain)` (main.go:117). -/
def tenantRoot (servePath host : Str) : Str := pathJoin [servePath, subdomainOf host]

/-- The comparison path of a visited file: the two `strings.TrimPrefix` calls on `pSrc`
(main.go:170-173). -/
def comparisonPath (subdomain pSrc : Str) : Str :=
  stringsTrimPrefix (stringsTrimPrefix pSrc "public/".toList) (subdomain ++ ['/'])

/-- The Request Path: `r.URL.Path` after `strings.TrimPrefix(_, "/")` and
`strings.TrimSuffix(_, "/")` (main.go:176-179). -/
def requestPath (urlPath : Str) : Str :=
  stringsTrimSuffix (stringsTrimPrefix urlPath ['/']) ['/']

/-- The match test of the callback on the comparison path `p` and the Request Path `url`
(main.go:182). -/
def fileMatches (p url : Str) : Bool :=
  decide (stringsTrimSuffix p (pathExt p) = url) || decide (p = url)

/-- The sentinel `errors.New("rendered")`. -/
def rendered : GoError := .new "rendered".toList

/-- The callback the handler passes to `filepath.WalkDir` (main.go:152-202).  The walk gives
a nil entry only together with an error, so the case of a nil entry without error is never
reached. -/
def walkFn (caps : Capabilities) (fsys : FileSystem) (r : Request) (subdomain : Str) :
    WalkDirFunc ResponseWriter :=
  fun pSrc d err w =>
    match err with
    | some e => (w ++ [.httpError ("Failed to walk directory: ".toList ++ e.Error) 500], some e)
    | none =>
      match d with
      | none => (w, none)
      | some d =>
        if d.IsDir then (w, none)
        else
          let p := comparisonPath subdomain pSrc
          let url := requestPath r.Path
          if fileMatches p url then
            if stringsHasSuffix p ".md".toList then (renderMarkdown caps fsys pSrc w, some rendered)
            else (w ++ [.serveFile pSrc], some rendered)
          else (w, none)

/-- The test `err != nil && err.Error() == "rendered"` on the result of the walk
(main.go:205). -/
def isRendered : Option GoError → Bool
  | none => false
  | some err => decide (err.Error = "rendered".toList)

/-- The fallback of the handler: `index.md` of the tenant root rendered if `os.Stat` finds
it, the file server otherwise (main.go:209-224). -/
def fallback (caps : Capabilities) (fsys : FileSystem) (filePath : Str)
    (w : ResponseWriter) : ResponseWriter :=
  let indexMdFile := pathJoin [filePath, "index.md".toList]
  match osStat fsys indexMdFile with
  | .ok _ => renderMarkdown caps fsys indexMdFile w
  | .error _ => w ++ [.fileServer filePath]

/-- What follows the walk in the handler: the test on the sentinel, then the fallback. -/
def afterWalk (caps : Capabilities) (fsys : FileSystem) (filePath : Str)
    (res : ResponseWriter × Option GoError) : ResponseWriter :=
  if isRendered res.2 then res.1 else fallback caps fsys filePath res.1

/-- The HTTP handler (main.go:109-225), for the serve path given on the command line. -/
def handler (caps : Capabilities) (fsys : FileSystem) (servePath : Str) (r : Request) :
    ResponseWriter :=
  let w : ResponseWriter := []
  let subdomain := subdomainOf r.Host
  let filePath := pathJoin [servePath, subdomain]
  if osIsNotExist (errOf (osStat fsys filePath)) then
    w ++ [.httpError ("Site not found: ".toList ++ subdomain) 404]
  else
    match osReadDir fsys filePath with
    | (_, some err) => w ++ [.httpError ("Failed to read directory: ".toList ++ err.Error) 500]
    | (files, none) =>
      if files.length = 0 then
        w ++ [.httpError ("No files found in site: ".toList ++ subdomain) 404]
      else
        afterWalk caps fsys filePath
          (filepathWalkDir fsys filePath (walkFn caps fsys r subdomain) w)

/-! ## `http.FileServer` -/

/-- What the file server of `net/http` answers. -/
inductive Served where
  | redirect (location : Str)
  | error (code : Nat)
  | listing (names : List Str)
  | content (data : Str)
  deriving DecidableEq, Repr

/-- The loop of `mapOpenError` of `net/http` over the elements of the opened name, `done`
being the elements already passed: the first element that names a plain file turns the
error into `fs.ErrNotExist`. -/
def mapOpenErrorScan (fsys : FileSystem) (originalErr : GoError) :
    List Str → List Str → GoError
  | _, [] => originalErr
  | done, part :: rest =>
    if part = [] then mapOpenErrorScan fsys originalErr (done ++ [part]) rest
    else
      match osStat fsys (stringsJoin (done ++ [part]) ['/']) with
      | .error _ => originalErr
      | .ok n =>
        if n.IsDir then mapOpenErrorScan fsys originalErr (done ++ [part]) rest
        else .errNotExist

/-- `mapOpenError(originalErr, name, sep, stat)` of `net/http`: an error of `Open` other
than "does not exist" and "permission" becomes `fs.ErrNotExist` when an element of the name
is a plain file. -/
def mapOpenError (fsys : FileSystem) (originalErr : GoError) (name : Str) : GoError :=
  if osIsNotExist (some originalErr) || osIsPermission (some originalErr) then originalErr
  else mapOpenErrorScan fsys originalErr [] (stringsSplit name '/')

/-- `http.Dir(root).Open(name)`: the entry at the cleaned `name` below `root`. -/
def httpDirOpen (fsys : FileSystem) (root name : Str) : Except GoError Node :=
  let p := (pathClean ('/' :: name)).drop 1
  let p1 := if p = [] then ['.'] else p
  let dir := if root = [] then ['.'] else root
  let fullName := pathJoin [dir, p1]
  match osStat fsys fullName with
  | .ok n => .ok n
  | .error err => .error (mapOpenError fsys err fullName)

/-- The status `toHTTPError` of `net/http` gives an error of `Open`. -/
def toHTTPError (err : GoError) : Nat :=
  if osIsNotExist (some err) then 404
  else if osIsPermission (some err) then 403
  else 500

/-- The bytes `serveContent` sends for an entry (a plain request, no range and no
condition). -/
def serveContent : Node → Served
  | .file _ none data => .content data
  | .file _ (some _) _ => .error 500
  | .dir _ none entries => .listing (entries.map Node.name)
  | .dir _ (some _) _ => .error 500

/-- `http.FileServer(http.Dir(root)).ServeHTTP(w, r)` on the URL path of the request: the
cleaned URL path is opened below `root`; `/index.html` and paths whose final slash does not
fit the entry redirect, a directory answers with its `index.html` or its listing, a file
with its bytes. -/
def httpFileServer (fsys : FileSystem) (root urlPath : Str) : Served :=
  let upath := if stringsHasPrefix urlPath ['/'] then urlPath else '/' :: urlPath
  let name := pathClean upath
  if stringsHasSuffix upath "/index.html".toList then .redirect "./".toList
  else
    match httpDirOpen fsys root name with
    | .error err => .error (toHTTPError err)
    | .ok (.dir dname readErr entries) =>
      if stringsHasSuffix upath ['/'] then
        match httpDirOpen fsys root (stringsTrimSuffix name ['/'] ++ "/index.html".toList) with
        | .ok index => serveContent index
        | .error _ => serveContent (.dir dname readErr entries)
      else .redirect (pathBase upath ++ ['/'])
    | .ok (.file fname readErr data) =>
      if stringsHasSuffix upath ['/'] then .redirect ("../".toList ++ pathBase upath)
      else serveContent (.file fname readErr data)

/-! ## The traversal order -/

/-- A call of the walk callback: the path, the entry and the error it is given. -/
structure Visit where
  path : Str
  entry : Option DirEntry
  err : Option GoError
  deriving DecidableEq, Repr

mutual
/-- The calls the walk makes below an entry at `path` when no call stops it: the entry
itself, the read error of a directory if it has one, then the entries in order. -/
def visitsNode (path : Str) (n : Node) : List Visit :=
  match n with
  | .file name _ _ => [⟨path, some ⟨name, false⟩, none⟩]
  | .dir name readErr entries =>
    ⟨path, some ⟨name, true⟩, none⟩ ::
      ((match readErr with
        | none => []
        | some errno =>
          [⟨path, some ⟨name, true⟩, some (.pathError "open".toList path errno)⟩]) ++
        visitsEntries path entries)
/-- The calls for the entries of the directory at `path`. -/
def visitsEntries (path : Str) (entries : List Node) : List Visit :=
  match entries with
  | [] => []
  | n :: rest => visitsNode (pathJoin [path, n.name]) n ++ visitsEntries path rest
end

/-- The traversal order of `filepath.WalkDir(root, _)`: every call the walk makes when no
call stops it. -/
def visits (fsys : FileSystem) (root : Str) : List Visit :=
  match osStat fsys root with
  | .error e => [⟨root, none, some e⟩]
  | .ok n => visitsNode root n

/-- The calls of a traversal order made one after the other until one answers with an
error. -/
def scanVisits {σ : Type} (fn : WalkDirFunc σ) : List Visit → σ → σ × Option GoError
  | [], s => (s, none)
  | v :: vs, s =>
    match fn v.path v.entry v.err s with
    | (s1, some e) => (s1, some e)
    | (s1, none) => scanVisits fn vs s1

/-- A visit the handler's callback passes over: no error, and a directory or a file that
fails the match test. -/
def passes (subdomain url : Str) (v : Visit) : Bool :=
  v.err.isNone &&
    match v.entry with
    | none => true
    | some d => d.IsDir || !fileMatches (comparisonPath subdomain v.path) url

/-- A visit the handler's callback takes: no error, and a file that satisfies the match
test. -/
def matched (subdomain url : Str) (v : Visit) : Bool :=
  v.err.isNone &&
    match v.entry with
    | none => false
    | some d => !d.IsDir && fileMatches (comparisonPath subdomain v.path) url

/-- What the callback writes for the matched file at `pSrc`: the Markdown rendering when
the comparison path ends in `.md`, the raw file otherwise. -/
def dispatchFile (caps : Capabilities) (fsys : FileSystem) (subdomain pSrc : Str)
    (w : ResponseWriter) : ResponseWriter :=
  if stringsHasSuffix (comparisonPath subdomain pSrc) ".md".toList then
    renderMarkdown caps fsys pSrc w
  else w ++ [.serveFile pSrc]

/-- The number of writes that send a document: an executed template, a served file, the
file server. -/
def dispatchCount : ResponseWriter → Nat
  | [] => 0
  | .httpError _ _ :: w => dispatchCount w
  | _ :: w => dispatchCount w + 1

/-- A visit whose error, if any, is a path error of the operating system. -/
def Visit.osErr (v : Visit) : Prop :=
  v.err = none ∨ ∃ op p errno, v.err = some (.pathError op p errno)

/-- A callback that never answers with a sentinel of `io/fs` when the error it is given is
nil or a path error. -/
def NeverSkips {σ : Type} (fn : WalkDirFunc σ) : Prop :=
  ∀ path d err s, (err = none ∨ ∃ op p errno, err = some (.pathError op p errno)) →
    (fn path d err s).2 ≠ some .skipDir ∧ (fn path d err s).2 ≠ some .skipAll

/-- The tenant root names a directory that can be read and has at least one entry. -/
def TenantReady (fsys : FileSystem) (root : Str) : Prop :=
  ∃ name entries, resolve fsys root = .ok (.dir name none entries) ∧ entries ≠ []

/-- A name a file-system entry can have: not empty, without a slash, and neither `.` nor
`..`. -/
def validName (n : Str) : Bool :=
  decide (n ≠ []) && decide ('/' ∉ n) && decide (n ≠ ['.']) && decide (n ≠ ['.', '.'])

mutual
/-- Every entry below the node has a valid name. -/
def validBelow : Node → Bool
  | .file _ _ _ => true
  | .dir _ _ entries => validEntries entries
/-- Every entry of the list, and every entry below one, has a valid name. -/
def validEntries : List Node → Bool
  | [] => true
  | n :: rest => validName n.name && validBelow n && validEntries rest
end

/-! ## Example file systems -/

/-- Capabilities for the examples: the renderer marks its input, writing never fails. -/
def exampleCaps : Capabilities := ⟨fun data => "<md>".toList ++ data, fun _ _ => none⟩

/-- A file system whose working directory `/srv` holds the directory `serve`, which holds
the one tenant directory `acme` with the given entries. -/
def exampleFS (serve : Str) (entries : List Node) : FileSystem :=
  ⟨.dir [] none
      [.dir "srv".toList none [.dir serve none [.dir "acme".toList none entries]]],
    ["srv".toList]⟩

/-- The file `about.md` of the scenario of the specification. -/
def aboutMd : Node := .file "about.md".toList none "# About\nHello".toList

/-- A request to the host `acme.example.com`. -/
def acmeRequest (urlPath : Str) : Request := ⟨"acme.example.com".toList, urlPath⟩

/-- A file that is not Markdown. -/
def logoPng : Node := .file "logo.png".toList none "PNG".toList

/-- The file `index.md` of a tenant root. -/
def indexMd : Node := .file "index.md".toList none "# Home".toList

/-- The call of the walk on the tenant root `public/acme`. -/
def acmeRootVisit : Visit := ⟨"public/acme".toList, some ⟨"acme".toList, true⟩, none⟩

/-- The call of the walk on the file `name` of the tenant root `public/acme`. -/
def acmeFileVisit (name : Str) : Visit :=
  ⟨"public/acme/".toList ++ name, some ⟨name, false⟩, none⟩

/-- A file with the same logical path as `about.md`. -/
def aboutHtml : Node := .file "about.html".toList none "<p>About</p>".toList

/-- A directory whose entries cannot be read. -/
def privateDir : Node := .dir "private".toList (some .EACCES) []

/-- A Markdown file that sorts after `private`. -/
def zebraMd : Node := .file "zebra.md".toList none "# Zebra".toList

/-- A plain file lying directly in the serve root. -/
def licenseFile : Node := .file "LICENSE".toList none "MIT".toList

/-- A file system whose working directory `/srv` holds the directory `serve` with the
given entries. -/
def exampleServeFS (serve : Str) (entries : List Node) : FileSystem :=
  ⟨.dir [] none [.dir "srv".toList none [.dir serve none entries]], ["srv".toList]⟩

/-! # Properties -/

/-! ## The walk follows the traversal order -/

theorem scanVisits_append {σ : Type} (fn : WalkDirFunc σ) (a b : List Visit) (s : σ) :
    scanVisits fn (a ++ b) s =
      match scanVisits fn a s with
      | (s1, none) => scanVisits fn b s1
      | (s1, some e) => (s1, some e) := by
  induction a generalizing s with
  | nil => simp [scanVisits]
  | cons v vs ih =>
    simp only [List.cons_append, scanVisits]
    rcases h : fn v.path v.entry v.err s with ⟨s1, _ | e⟩
    · simp [ih]
    · simp

theorem scanVisits_noSkip {σ : Type} (fn : WalkDirFunc σ) (hfn : NeverSkips fn)
    (vs : List Visit) (hvs : ∀ v ∈ vs, v.osErr) (s : σ) :
    (scanVisits fn vs s).2 ≠ some .skipDir ∧ (scanVisits fn vs s).2 ≠ some .skipAll := by
  induction vs generalizing s with
  | nil => simp [scanVisits]
  | cons v vs ih =>
    simp only [scanVisits]
    have hv := hfn v.path v.entry v.err s (hvs v (List.mem_cons_self _ _))
    rcases h : fn v.path v.entry v.err s with ⟨s1, _ | e⟩
    · exact ih (fun x hx => hvs x (List.mem_cons_of_mem _ hx)) s1
    · rw [h] at hv
      simpa using hv

mutual
theorem visitsNode_osErr : ∀ (n : Node) (path : Str), ∀ v ∈ visitsNode path n, v.osErr
  | .file name _ _, path => by
    intro v hv
    simp [visitsNode] at hv
    subst hv
    exact Or.inl rfl
  | .dir name readErr entries, path => by
    intro v hv
    simp only [visitsNode] at hv
    rcases List.mem_cons.1 hv with h | h
    · subst h
      exact Or.inl rfl
    · rcases List.mem_append.1 h with h | h
      · cases readErr with
        | none => simp at h
        | some errno =>
          simp at h
          subst h
          exact Or.inr ⟨_, _, _, rfl⟩
      · exact visitsEntries_osErr entries path v h
theorem visitsEntries_osErr : ∀ (entries : List Node) (path : Str),
    ∀ v ∈ visitsEntries path entries, v.osErr
  | [], path => by
    intro v hv
    simp [visitsEntries] at hv
  | n :: rest, path => by
    intro v hv
    rw [visitsEntries] at hv
    rcases List.mem_append.1 hv with h | h
    · exact visitsNode_osErr n _ v h
    · exact visitsEntries_osErr rest path v h
end

mutual
theorem walkDir_eq_scan {σ : Type} (fn : WalkDirFunc σ) (hfn : NeverSkips fn) :
    ∀ (n : Node) (path : Str) (s : σ), walkDir fn path n s = scanVisits fn (visitsNode path n) s
  | .file name _ _, path, s => by
    rw [walkDir, visitsNode]
    simp only [scanVisits]
    rcases h : fn path (some ⟨name, false⟩) none s with ⟨s1, _ | e⟩ <;> rfl
  | .dir name readErr entries, path, s => by
    rw [walkDir]
    simp only [visitsNode, scanVisits]
    have h1 := hfn path (some ⟨name, true⟩) none s (Or.inl rfl)
    rcases h : fn path (some ⟨name, true⟩) none s with ⟨s1, _ | e⟩
    · cases readErr with
      | none =>
        simp only [List.nil_append]
        exact walkEntries_eq_scan fn hfn entries path s1
      | some errno =>
        simp only [List.singleton_append, scanVisits]
        have h2 := hfn path (some ⟨name, true⟩)
          (some (.pathError "open".toList path errno)) s1 (Or.inr ⟨_, _, _, rfl⟩)
        rcases h' : fn path (some ⟨name, true⟩)
          (some (.pathError "open".toList path errno)) s1 with ⟨s2, _ | e⟩
        · exact walkEntries_eq_scan fn hfn entries path s2
        · rw [h'] at h2
          cases e <;> simp_all
    · rw [h] at h1
      cases e <;> simp_all
theorem walkEntries_eq_scan {σ : Type} (fn : WalkDirFunc σ) (hfn : NeverSkips fn) :
    ∀ (entries : List Node) (path : Str) (s : σ),
      walkEntries fn path entries s = scanVisits fn (visitsEntries path entries) s
  | [], path, s => by
    rw [walkEntries, visitsEntries]
    rfl
  | n :: rest, path, s => by
    rw [walkEntries, visitsEntries, scanVisits_append, walkDir_eq_scan fn hfn n]
    have h1 := scanVisits_noSkip fn hfn _ (visitsNode_osErr n (pathJoin [path, n.name])) s
    rcases h : scanVisits fn (visitsNode (pathJoin [path, n.name]) n) s with ⟨s1, _ | e⟩
    · exact walkEntries_eq_scan fn hfn rest path s1
    · rw [h] at h1
      cases e <;> simp_all
end

theorem filepathWalkDir_eq_scan {σ : Type} (fsys : FileSystem) (root : Str)
    (fn : WalkDirFunc σ) (hfn : NeverSkips fn) (s : σ) :
    filepathWalkDir fsys root fn s = scanVisits fn (visits fsys root) s := by
  unfold filepathWalkDir visits
  cases hst : osStat fsys root with
  | error e =>
    have he : ∃ op p errno, e = .pathError op p errno := by
      unfold osStat at hst
      cases hr : resolve fsys root with
      | ok n => rw [hr] at hst; cases hst
      | error x =>
        rw [hr] at hst
        simp only [Except.error.injEq] at hst
        exact ⟨_, _, _, hst.symm⟩
    obtain ⟨op, p, errno, rfl⟩ := he
    have h1 := hfn root none (some (.pathError op p errno)) s (Or.inr ⟨_, _, _, rfl⟩)
    simp only [scanVisits]
    rcases h : fn root none (some (.pathError op p errno)) s with ⟨s1, _ | e⟩
    · rfl
    · rw [h] at h1
      cases e <;> simp_all
  | ok n =>
    simp only
    rw [walkDir_eq_scan fn hfn]
    have h1 := scanVisits_noSkip fn hfn _ (visitsNode_osErr n root) s
    rcases h : scanVisits fn (visitsNode root n) s with ⟨s1, _ | e⟩
    · rfl
    · rw [h] at h1
      cases e <;> simp_all

/-! ## The callback of the handler -/

theorem pathError_not_rendered (op p : Str) (errno : Errno) :
    isRendered (some (.pathError op p errno)) = false := by
  simp only [isRendered, GoError.Error, decide_eq_false_iff_not]
  intro h
  have hmem : ' ' ∈ op ++ [' '] ++ p ++ [':', ' '] ++ errno.text := by simp
  rw [h] at hmem
  revert hmem
  decide

theorem walkFn_error (caps : Capabilities) (fsys : FileSystem) (r : Request) (sub pSrc : Str)
    (d : Option DirEntry) (e : GoError) (w : ResponseWriter) :
    walkFn caps fsys r sub pSrc d (some e) w =
      (w ++ [.httpError ("Failed to walk directory: ".toList ++ e.Error) 500], some e) := rfl

theorem walkFn_passes (caps : Capabilities) (fsys : FileSystem) (r : Request) (sub : Str)
    (v : Visit) (hv : passes sub (requestPath r.Path) v = true) (w : ResponseWriter) :
    walkFn caps fsys r sub v.path v.entry v.err w = (w, none) := by
  unfold passes at hv
  cases he : v.err with
  | some e => simp [he] at hv
  | none =>
    cases hent : v.entry with
    | none => rfl
    | some d =>
      simp only [he, hent, Option.isNone_none, Bool.true_and, Bool.or_eq_true,
        Bool.not_eq_true'] at hv
      rcases hv with hdir | hm
      · simp [walkFn, hdir]
      · cases hdir : d.IsDir <;> simp [walkFn, hdir, hm]

theorem walkFn_matched (caps : Capabilities) (fsys : FileSystem) (r : Request) (sub : Str)
    (v : Visit) (hv : matched sub (requestPath r.Path) v = true) (w : ResponseWriter) :
    walkFn caps fsys r sub v.path v.entry v.err w =
      (dispatchFile caps fsys sub v.path w, some rendered) := by
  unfold matched at hv
  cases he : v.err with
  | some e => simp [he] at hv
  | none =>
    cases hent : v.entry with
    | none => simp [he, hent] at hv
    | some d =>
      simp only [he, hent, Option.isNone_none, Bool.true_and, Bool.and_eq_true,
        Bool.not_eq_true'] at hv
      obtain ⟨hdir, hm⟩ := hv
      simp only [walkFn, hdir, hm, dispatchFile]
      split_ifs <;> first | rfl | contradiction

theorem walkFn_neverSkips (caps : Capabilities) (fsys : FileSystem) (r : Request) (sub : Str) :
    NeverSkips (walkFn caps fsys r sub) := by
  intro path d err s herr
  rcases herr with rfl | ⟨op, p, errno, rfl⟩
  · cases d with
    | none => simp [walkFn]
    | some d =>
      simp only [walkFn]
      split
      · simp
      · split
        · split <;> simp [rendered]
        · simp
  · simp [walkFn_error]

/-- Every visit is passed over, taken, or carries an error. -/
theorem visit_cases (sub url : Str) (v : Visit) :
    passes sub url v = true ∨ matched sub url v = true ∨ ∃ e, v.err = some e := by
  cases he : v.err with
  | some e => exact Or.inr (Or.inr ⟨e, rfl⟩)
  | none =>
    cases hent : v.entry with
    | none => exact Or.inl (by simp [passes, he, hent])
    | some d =>
      cases hdir : d.IsDir with
      | true => exact Or.inl (by simp [passes, he, hent, hdir])
      | false =>
        cases hm : fileMatches (comparisonPath sub v.path) url with
        | true => exact Or.inr (Or.inl (by simp [matched, he, hent, hdir, hm]))
        | false => exact Or.inl (by simp [passes, he, hent, hdir, hm])

theorem scan_passes (caps : Capabilities) (fsys : FileSystem) (r : Request) (sub : Str)
    (pre rest : List Visit) (hpre : ∀ x ∈ pre, passes sub (requestPath r.Path) x = true)
    (w : ResponseWriter) :
    scanVisits (walkFn caps fsys r sub) (pre ++ rest) w =
      scanVisits (walkFn caps fsys r sub) rest w := by
  induction pre with
  | nil => rfl
  | cons x xs ih =>
    simp only [List.cons_append, scanVisits]
    rw [walkFn_passes caps fsys r sub x (hpre x (List.mem_cons_self _ _))]
    exact ih (fun y hy => hpre y (List.mem_cons_of_mem _ hy))

theorem scan_found (caps : Capabilities) (fsys : FileSystem) (r : Request) (sub : Str)
    (pre : List Visit) (v : Visit) (post : List Visit)
    (hpre : ∀ x ∈ pre, passes sub (requestPath r.Path) x = true)
    (hv : matched sub (requestPath r.Path) v = true) (w : ResponseWriter) :
    scanVisits (walkFn caps fsys r sub) (pre ++ v :: post) w =
      (dispatchFile caps fsys sub v.path w, some rendered) := by
  rw [scan_passes caps fsys r sub pre _ hpre]
  simp only [scanVisits]
  rw [walkFn_matched caps fsys r sub v hv]

theorem scan_failed (caps : Capabilities) (fsys : FileSystem) (r : Request) (sub : Str)
    (pre : List Visit) (v : Visit) (post : List Visit) (e : GoError)
    (hpre : ∀ x ∈ pre, passes sub (requestPath r.Path) x = true)
    (hv : v.err = some e) (w : ResponseWriter) :
    scanVisits (walkFn caps fsys r sub) (pre ++ v :: post) w =
      (w ++ [.httpError ("Failed to walk directory: ".toList ++ e.Error) 500], some e) := by
  rw [scan_passes caps fsys r sub pre _ hpre]
  simp only [scanVisits]
  rw [hv, walkFn_error]

theorem scan_none (caps : Capabilities) (fsys : FileSystem) (r : Request) (sub : Str)
    (vs : List Visit) (hvs : ∀ x ∈ vs, passes sub (requestPath r.Path) x = true)
    (w : ResponseWriter) :
    scanVisits (walkFn caps fsys r sub) vs w = (w, none) := by
  have h := scan_passes caps fsys r sub vs [] hvs w
  rw [List.append_nil] at h
  rw [h]
  rfl

/-- The decomposition of a traversal order at the first visit that is not passed over. -/
theorem scan_decompose (sub url : Str) (vs : List Visit) :
    (∀ v ∈ vs, passes sub url v = true) ∨
      ∃ pre v post, vs = pre ++ v :: post ∧ (∀ x ∈ pre, passes sub url x = true) ∧
        (matched sub url v = true ∨ ∃ e, v.err = some e) := by
  induction vs with
  | nil => exact Or.inl (fun v hv => by cases hv)
  | cons x xs ih =>
    rcases visit_cases sub url x with hx | hx
    · rcases ih with h | ⟨pre, v, post, hvs, hpre, hv⟩
      · refine Or.inl (fun v hv => ?_)
        rcases List.mem_cons.1 hv with rfl | hv
        · exact hx
        · exact h v hv
      · refine Or.inr ⟨x :: pre, v, post, by rw [hvs]; rfl, fun y hy => ?_, hv⟩
        rcases List.mem_cons.1 hy with rfl | hy
        · exact hx
        · exact hpre y hy
    · exact Or.inr ⟨[], x, xs, rfl, ⟨fun y hy => by simp at hy, hx⟩⟩

/-! ## The handler on an existing, non-empty tenant -/

theorem handler_ready (caps : Capabilities) (fsys : FileSystem) (servePath : Str)
    (r : Request) (h : TenantReady fsys (tenantRoot servePath r.Host)) :
    handler caps fsys servePath r =
      afterWalk caps fsys (tenantRoot servePath r.Host)
        (scanVisits (walkFn caps fsys r (subdomainOf r.Host))
          (visits fsys (tenantRoot servePath r.Host)) []) := by
  obtain ⟨name, entries, hres, hne⟩ := h
  unfold tenantRoot at hres ⊢
  have hlen : entries.length ≠ 0 := fun h0 => hne (List.length_eq_zero.1 h0)
  simp only [handler, osStat, osReadDir, hres, errOf, osIsNotExist, hlen, if_false,
    List.nil_append, Bool.false_eq_true]
  rw [filepathWalkDir_eq_scan _ _ _ (walkFn_neverSkips caps fsys r _)]

theorem afterWalk_rendered (caps : Capabilities) (fsys : FileSystem) (filePath : Str)
    (w : ResponseWriter) : afterWalk caps fsys filePath (w, some rendered) = w := by
  simp [afterWalk, isRendered, rendered, GoError.Error]

theorem afterWalk_not_rendered (caps : Capabilities) (fsys : FileSystem) (filePath : Str)
    (w : ResponseWriter) (err : Option GoError) (h : isRendered err = false) :
    afterWalk caps fsys filePath (w, err) = fallback caps fsys filePath w := by
  simp only [afterWalk, h, fallback]
  rfl

/-! ## Strings -/

theorem stringsTrimPrefix_append (pre s : Str) : stringsTrimPrefix (pre ++ s) pre = s := by
  simp [stringsTrimPrefix, stringsHasPrefix]

theorem stringsTrimSuffix_append (s suf : Str) : stringsTrimSuffix (s ++ suf) suf = s := by
  simp [stringsTrimSuffix, stringsHasSuffix]

theorem stringsSplit_ne_nil (s : Str) (sep : Char) : stringsSplit s sep ≠ [] := by
  cases s with
  | nil => simp [stringsSplit]
  | cons c cs =>
    simp only [stringsSplit]
    split
    · simp
    · split <;> simp

theorem stringsSplit_headD (s : Str) (sep : Char) :
    (stringsSplit s sep).headD [] = s.takeWhile (fun c => c ≠ sep) := by
  induction s with
  | nil => rfl
  | cons c cs ih =>
    simp only [stringsSplit]
    by_cases hc : c = sep
    · simp [hc]
    · simp only [hc, if_false]
      cases hs : stringsSplit cs sep with
      | nil => exact absurd hs (stringsSplit_ne_nil cs sep)
      | cons h t =>
        rw [hs] at ih
        simp only [List.headD_cons] at ih
        simp [List.takeWhile_cons, hc, ih]

theorem subdomainOf_eq (host : Str) : subdomainOf host = host.takeWhile (fun c => c ≠ '.') :=
  stringsSplit_headD host '.'

theorem dot_not_mem_subdomainOf (host : Str) : '.' ∉ subdomainOf host := by
  rw [subdomainOf_eq]
  intro h
  have := List.mem_takeWhile_imp h
  simp at this

/-- C3: the tenant identifier is the part of the host before its first dot (it holds no
dot and, when the host has a dot, is followed by one in the host), it is the whole host
when the host has no dot, and the tenant root is `path.Join` of the serve root and the
identifier. -/
theorem tenant_identifier_before_first_dot (servePath host : Str) :
    '.' ∉ subdomainOf host ∧
      ('.' ∈ host → ∃ rest, host = subdomainOf host ++ '.' :: rest) ∧
      ('.' ∉ host → subdomainOf host = host) ∧
      tenantRoot servePath host = pathJoin [servePath, subdomainOf host] := by
  refine ⟨dot_not_mem_subdomainOf host, ?_, ?_, rfl⟩
  · intro hmem
    rw [subdomainOf_eq]
    have hsplit := List.takeWhile_append_dropWhile (fun c => decide (c ≠ '.')) host
    cases hd : host.dropWhile (fun c => decide (c ≠ '.')) with
    | nil =>
      rw [hd, List.append_nil] at hsplit
      rw [← hsplit] at hmem
      have := List.mem_takeWhile_imp hmem
      simp at this
    | cons c rest =>
      have hc : c = '.' := by
        have := List.head_dropWhile_not (fun c => decide (c ≠ '.')) host (by rw [hd]; simp)
        simp only [hd, List.head_cons] at this
        simpa using this
      subst hc
      exact ⟨rest, by rw [← hd, hsplit]⟩
  · intro hmem
    rw [subdomainOf_eq, List.takeWhile_eq_self_iff]
    intro c hc
    have : c ≠ '.' := fun h => hmem (h ▸ hc)
    simpa using this


/-! ## The Request Path -/

theorem trimPrefix_slash_cases (s : Str) :
    (∃ t, s = '/' :: t ∧ stringsTrimPrefix s ['/'] = t) ∨
      (s.head? ≠ some '/' ∧ stringsTrimPrefix s ['/'] = s) := by
  cases s with
  | nil => exact Or.inr ⟨by simp, by simp [stringsTrimPrefix, stringsHasPrefix]⟩
  | cons c t =>
    by_cases hc : c = '/'
    · subst hc
      exact Or.inl ⟨t, rfl, stringsTrimPrefix_append ['/'] t⟩
    · refine Or.inr ⟨by simpa using hc, ?_⟩
      have hc2 : ¬ '/' = c := fun h => hc h.symm
      simp [stringsTrimPrefix, stringsHasPrefix, hc2]

theorem trimSuffix_slash_cases (s : Str) :
    (∃ t, s = t ++ ['/'] ∧ stringsTrimSuffix s ['/'] = t) ∨
      (s.getLast? ≠ some '/' ∧ stringsTrimSuffix s ['/'] = s) := by
  by_cases h : ['/'] <:+ s
  · obtain ⟨t, rfl⟩ := h
    exact Or.inl ⟨t, rfl, stringsTrimSuffix_append t ['/']⟩
  · refine Or.inr ⟨?_, ?_⟩
    · intro hl
      obtain ⟨t, ht⟩ := List.getLast?_eq_some_iff.1 hl
      exact h ⟨t, ht.symm⟩
    · have hb : stringsHasSuffix s ['/'] = false := by
        simp only [stringsHasSuffix, Bool.eq_false_iff, ne_eq, List.isSuffixOf_iff_suffix]
        exact h
      simp [stringsTrimSuffix, hb]

theorem requestPath_decompose (u : Str) :
    ∃ a b, (a = [] ∨ a = ['/']) ∧ (b = [] ∨ b = ['/']) ∧ u = a ++ requestPath u ++ b := by
  unfold requestPath
  rcases trimPrefix_slash_cases u with ⟨v, rfl, hv⟩ | ⟨_, hv⟩
  · rw [hv]
    rcases trimSuffix_slash_cases v with ⟨w, rfl, hw⟩ | ⟨_, hw⟩
    · rw [hw]
      exact ⟨['/'], ['/'], Or.inr rfl, Or.inr rfl, by simp⟩
    · rw [hw]
      exact ⟨['/'], [], Or.inr rfl, Or.inl rfl, by simp⟩
  · rw [hv]
    rcases trimSuffix_slash_cases u with ⟨w, rfl, hw⟩ | ⟨_, hw⟩
    · rw [hw]
      exact ⟨[], ['/'], Or.inl rfl, Or.inr rfl, by simp⟩
    · rw [hw]
      exact ⟨[], [], Or.inl rfl, Or.inl rfl, by simp⟩

theorem requestPath_no_slash (u : Str) (h1 : ¬ ['/', '/'] <+: u) (h2 : ¬ ['/', '/'] <:+ u) :
    (requestPath u).head? ≠ some '/' ∧ (requestPath u).getLast? ≠ some '/' := by
  unfold requestPath
  rcases trimPrefix_slash_cases u with ⟨v, rfl, hv⟩ | ⟨hhead, hv⟩
  · rw [hv]
    have hvhead : v.head? ≠ some '/' := by
      intro h
      apply h1
      cases v with
      | nil => simp at h
      | cons c t =>
        simp only [List.head?_cons, Option.some.injEq] at h
        subst h
        exact ⟨t, rfl⟩
    rcases trimSuffix_slash_cases v with ⟨w, rfl, hw⟩ | ⟨hlast, hw⟩
    · rw [hw]
      refine ⟨?_, ?_⟩
      · cases w with
        | nil => simp
        | cons c t => simpa using hvhead
      · intro hl
        obtain ⟨t, rfl⟩ := List.getLast?_eq_some_iff.1 hl
        exact h2 ⟨'/' :: t, by simp⟩
    · rw [hw]
      exact ⟨hvhead, hlast⟩
  · rw [hv]
    rcases trimSuffix_slash_cases u with ⟨w, rfl, hw⟩ | ⟨hlast, hw⟩
    · rw [hw]
      refine ⟨?_, ?_⟩
      · cases w with
        | nil => simp
        | cons c t => simpa using hhead
      · intro hl
        obtain ⟨t, rfl⟩ := List.getLast?_eq_some_iff.1 hl
        exact h2 ⟨t, by simp⟩
    · rw [hw]
      exact ⟨hhead, hlast⟩

theorem requestPath_both (v : Str) : requestPath ('/' :: (v ++ ['/'])) = v := by
  unfold requestPath
  have h1 : stringsTrimPrefix ('/' :: (v ++ ['/'])) ['/'] = v ++ ['/'] :=
    stringsTrimPrefix_append ['/'] (v ++ ['/'])
  rw [h1, stringsTrimSuffix_append]

theorem requestPath_leading (v : Str) (hv : v.getLast? ≠ some '/') :
    requestPath ('/' :: v) = v := by
  unfold requestPath
  have h1 : stringsTrimPrefix ('/' :: v) ['/'] = v := stringsTrimPrefix_append ['/'] v
  rw [h1]
  rcases trimSuffix_slash_cases v with ⟨t, rfl, _⟩ | ⟨_, hw⟩
  · exact absurd (List.getLast?_concat t) hv
  · exact hw

theorem requestPath_trailing (v : Str) (hv : v.head? ≠ some '/') :
    requestPath (v ++ ['/']) = v := by
  cases v with
  | nil => decide
  | cons c t =>
    unfold requestPath
    rcases trimPrefix_slash_cases ((c :: t) ++ ['/']) with ⟨w, hw, _⟩ | ⟨_, hw⟩
    · simp only [List.cons_append, List.cons.injEq] at hw
      exact absurd (by rw [hw.1]; rfl) hv
    · rw [hw, stringsTrimSuffix_append]

theorem requestPath_neither (u : Str) (h1 : u.head? ≠ some '/')
    (h2 : u.getLast? ≠ some '/') : requestPath u = u := by
  unfold requestPath
  rcases trimPrefix_slash_cases u with ⟨w, rfl, _⟩ | ⟨_, hw⟩
  · exact absurd rfl h1
  · rw [hw]
    rcases trimSuffix_slash_cases u with ⟨t, rfl, _⟩ | ⟨_, hw2⟩
    · exact absurd (List.getLast?_concat t) h2
    · exact hw2

/-- C9, as the code has it: the Request Path is the URL path without one leading slash, if
it has one, and without one trailing slash, if what is left has one.  The four equations
fix it for every URL path: `/v/` gives `v`; `/v` gives `v` when `v` does not end with a
slash; `v/` gives `v` when `v` does not begin with a slash; and a path that neither begins
nor ends with a slash is left as it is.  So every URL path is the Request Path with at most
one slash put back at each end, and for a URL path that neither begins nor ends with two
slashes the Request Path neither begins nor ends with a slash. -/
theorem requestPath_strips_one_slash (u : Str) :
    (∀ v : Str, requestPath ('/' :: (v ++ ['/'])) = v) ∧
      (∀ v : Str, v.getLast? ≠ some '/' → requestPath ('/' :: v) = v) ∧
      (∀ v : Str, v.head? ≠ some '/' → requestPath (v ++ ['/']) = v) ∧
      (u.head? ≠ some '/' → u.getLast? ≠ some '/' → requestPath u = u) ∧
      (∃ a b, (a = [] ∨ a = ['/']) ∧ (b = [] ∨ b = ['/']) ∧ u = a ++ requestPath u ++ b) ∧
      (¬ ['/', '/'] <+: u → ¬ ['/', '/'] <:+ u →
        (requestPath u).head? ≠ some '/' ∧ (requestPath u).getLast? ≠ some '/') :=
  ⟨requestPath_both, requestPath_leading, requestPath_trailing, requestPath_neither u,
    requestPath_decompose u, requestPath_no_slash u⟩

/-- C9, witness: `/docs/intro/` gives `docs/intro`, which neither begins nor ends with a
slash, `/` gives the empty string, and `//a//` gives `/a/`. -/
theorem requestPath_strips_one_slash_witness :
    requestPath "/docs/intro/".toList = "docs/intro".toList ∧
      requestPath "/".toList = [] ∧
      requestPath "//a//".toList = "/a/".toList ∧
      (requestPath "/docs/intro/".toList).head? ≠ some '/' ∧
      (requestPath "/docs/intro/".toList).getLast? ≠ some '/' :=
  ⟨(requestPath_strips_one_slash []).1 "docs/intro".toList,
    (requestPath_strips_one_slash []).2.1 [] (by decide),
    (requestPath_strips_one_slash []).1 "/a/".toList,
    (requestPath_strips_one_slash "/docs/intro/".toList).2.2.2.2.2 (by decide) (by decide)⟩

/-- C9, as stated, fails: the Request Path of `//a//` is `/a/`, which begins and ends with
a slash. -/
theorem requestPath_may_keep_slashes :
    requestPath "//a//".toList = "/a/".toList ∧
      ¬ ∀ u : Str, (requestPath u).head? ≠ some '/' ∧ (requestPath u).getLast? ≠ some '/' := by
  refine ⟨by decide, fun h => ?_⟩
  have h3 := (h "//a//".toList).1
  revert h3
  decide

/-! ## Dispatch of the matched file -/

theorem stringsTrimPrefix_suffix (s pre : Str) : stringsTrimPrefix s pre <:+ s := by
  unfold stringsTrimPrefix
  split
  · exact List.drop_suffix _ _
  · exact List.suffix_refl _

theorem comparisonPath_suffix (sub pSrc : Str) : comparisonPath sub pSrc <:+ pSrc :=
  (stringsTrimPrefix_suffix _ _).trans (stringsTrimPrefix_suffix _ _)

theorem hasSuffix_iff (s suf : Str) : stringsHasSuffix s suf = true ↔ suf <:+ s := by
  simp [stringsHasSuffix]

theorem pathExt_md (a : Str) : pathExt (a ++ ".md".toList) = ".md".toList := by
  simp [pathExt, pathExtScan]

theorem pathBase_md (a : Str) :
    pathBase (a ++ ".md".toList) =
      (a.reverse.takeWhile (fun c => c ≠ '/')).reverse ++ ".md".toList := by
  simp [pathBase, dropSlashes, List.takeWhile_cons]

/-- The writes of `renderMarkdown` on a readable file whose path ends in `.md`: the template
on the base name without `.md` and on the rendering of the bytes, then the report of a
failed write, if any. -/
theorem renderMarkdown_md (caps : Capabilities) (fsys : FileSystem) (pSrc data : Str)
    (w : ResponseWriter) (hmd : ".md".toList <:+ pSrc) (hread : osReadFile fsys pSrc = .ok data) :
    ∃ title, pathBase pSrc = title ++ ".md".toList ∧
      renderMarkdown caps fsys pSrc w =
        w ++ .templateExecute title (caps.markdown data) ::
          (match caps.executeErr title (caps.markdown data) with
            | some err =>
              [.httpError ("Failed to write HTML response: ".toList ++ err.Error) 500]
            | none => []) := by
  obtain ⟨a, rfl⟩ := hmd
  refine ⟨(a.reverse.takeWhile (fun c => c ≠ '/')).reverse, pathBase_md a, ?_⟩
  simp only [renderMarkdown, hread, pathExt_md, pathBase_md, stringsTrimSuffix_append]
  cases caps.executeErr _ _ <;> simp

theorem dispatchCount_append (a b : ResponseWriter) :
    dispatchCount (a ++ b) = dispatchCount a + dispatchCount b := by
  induction a with
  | nil => simp [dispatchCount]
  | cons e es ih =>
    cases e <;> simp [dispatchCount, ih] <;> omega

theorem dispatchCount_renderMarkdown (caps : Capabilities) (fsys : FileSystem) (p : Str)
    (w : ResponseWriter) :
    dispatchCount (renderMarkdown caps fsys p w) ≤ dispatchCount w + 1 := by
  unfold renderMarkdown
  cases osReadFile fsys p with
  | error e => simp [dispatchCount_append, dispatchCount]
  | ok data =>
    simp only
    cases caps.executeErr _ _ <;> simp [dispatchCount_append, dispatchCount]

theorem dispatchCount_dispatchFile (caps : Capabilities) (fsys : FileSystem) (sub p : Str) :
    dispatchCount (dispatchFile caps fsys sub p []) ≤ 1 := by
  unfold dispatchFile
  split
  · exact dispatchCount_renderMarkdown caps fsys p []
  · simp [dispatchCount]

/-- The response of the handler when the traversal order has a first matching file. -/
theorem handler_found (caps : Capabilities) (fsys : FileSystem) (servePath : Str)
    (r : Request) (pre : List Visit) (v : Visit) (post : List Visit)
    (hready : TenantReady fsys (tenantRoot servePath r.Host))
    (hvs : visits fsys (tenantRoot servePath r.Host) = pre ++ v :: post)
    (hpre : ∀ x ∈ pre, passes (subdomainOf r.Host) (requestPath r.Path) x = true)
    (hv : matched (subdomainOf r.Host) (requestPath r.Path) v = true) :
    handler caps fsys servePath r = dispatchFile caps fsys (subdomainOf r.Host) v.path [] := by
  rw [handler_ready caps fsys servePath r hready, hvs,
    scan_found caps fsys r _ pre v post hpre hv, afterWalk_rendered]

/-- The response of the handler when the walk completes without a match. -/
theorem handler_none (caps : Capabilities) (fsys : FileSystem) (servePath : Str)
    (r : Request)
    (hready : TenantReady fsys (tenantRoot servePath r.Host))
    (hvs : ∀ x ∈ visits fsys (tenantRoot servePath r.Host),
      passes (subdomainOf r.Host) (requestPath r.Path) x = true) :
    handler caps fsys servePath r = fallback caps fsys (tenantRoot servePath r.Host) [] := by
  rw [handler_ready caps fsys servePath r hready, scan_none caps fsys r _ _ hvs,
    afterWalk_not_rendered caps fsys _ [] none rfl]

/-- C5: when the matcher finds a file (the first visit of the traversal order that is a
matching file), the response is `renderMarkdown` of that file if its comparison path ends
in `.md`, and for a readable file that is the template executed on the base name without
`.md` and on the Markdown rendering of the file's bytes; otherwise the response is the one
call `http.ServeFile` on the file. -/
theorem matched_file_is_rendered_or_served (caps : Capabilities) (fsys : FileSystem)
    (servePath : Str) (r : Request) (pre : List Visit) (v : Visit) (post : List Visit)
    (hready : TenantReady fsys (tenantRoot servePath r.Host))
    (hvs : visits fsys (tenantRoot servePath r.Host) = pre ++ v :: post)
    (hpre : ∀ x ∈ pre, passes (subdomainOf r.Host) (requestPath r.Path) x = true)
    (hv : matched (subdomainOf r.Host) (requestPath r.Path) v = true) :
    (stringsHasSuffix (comparisonPath (subdomainOf r.Host) v.path) ".md".toList = true →
      handler caps fsys servePath r = renderMarkdown caps fsys v.path [] ∧
      ∀ data, osReadFile fsys v.path = .ok data →
        ∃ title, pathBase v.path = title ++ ".md".toList ∧
          handler caps fsys servePath r =
            .templateExecute title (caps.markdown data) ::
              (match caps.executeErr title (caps.markdown data) with
                | some err =>
                  [.httpError ("Failed to write HTML response: ".toList ++ err.Error) 500]
                | none => [])) ∧
    (stringsHasSuffix (comparisonPath (subdomainOf r.Host) v.path) ".md".toList = false →
      handler caps fsys servePath r = [.serveFile v.path]) := by
  have hh := handler_found caps fsys servePath r pre v post hready hvs hpre hv
  constructor
  · intro hmd
    have h1 : handler caps fsys servePath r = renderMarkdown caps fsys v.path [] := by
      rw [hh, dispatchFile, if_pos hmd]
    refine ⟨h1, fun data hread => ?_⟩
    have hsuf : ".md".toList <:+ v.path :=
      ((hasSuffix_iff _ _).1 hmd).trans (comparisonPath_suffix _ _)
    obtain ⟨title, hbase, hrm⟩ := renderMarkdown_md caps fsys v.path data [] hsuf hread
    exact ⟨title, hbase, by rw [h1, hrm]; rfl⟩
  · intro hmd
    rw [hh, dispatchFile, hmd]
    rfl

/-- C5, witness: the scenario of the specification (`acme/about.md` requested as `/about`
is answered with the template on the title `about`), and a file that is not Markdown
(`logo.png` requested as `/logo`) is handed to `http.ServeFile`. -/
theorem matched_file_is_rendered_or_served_witness :
    handler exampleCaps (exampleFS "public".toList [aboutMd, logoPng]) "public".toList
        (acmeRequest "/about".toList) =
        [.templateExecute "about".toList "<md># About\nHello".toList] ∧
      handler exampleCaps (exampleFS "public".toList [aboutMd, logoPng]) "public".toList
        (acmeRequest "/about".toList) =
        renderMarkdown exampleCaps (exampleFS "public".toList [aboutMd, logoPng])
          "public/acme/about.md".toList [] ∧
      handler exampleCaps (exampleFS "public".toList [aboutMd, logoPng]) "public".toList
        (acmeRequest "/logo".toList) = [.serveFile "public/acme/logo.png".toList] :=
  ⟨by decide,
    ((matched_file_is_rendered_or_served exampleCaps
      (exampleFS "public".toList [aboutMd, logoPng]) "public".toList
      (acmeRequest "/about".toList) [acmeRootVisit] (acmeFileVisit "about.md".toList)
      [acmeFileVisit "logo.png".toList]
      ⟨"acme".toList, [aboutMd, logoPng], rfl, List.cons_ne_nil _ _⟩
      (by decide) (by decide) (by decide)).1 (by decide)).1,
    (matched_file_is_rendered_or_served exampleCaps
      (exampleFS "public".toList [aboutMd, logoPng]) "public".toList
      (acmeRequest "/logo".toList) [acmeRootVisit, acmeFileVisit "about.md".toList]
      (acmeFileVisit "logo.png".toList) []
      ⟨"acme".toList, [aboutMd, logoPng], rfl, List.cons_ne_nil _ _⟩
      (by decide) (by decide) (by decide)).2 (by decide)⟩

/-! ## The fallback -/

theorem fileServer_not_mem_renderMarkdown (caps : Capabilities) (fsys : FileSystem) (p : Str)
    (rt : Str) : Event.fileServer rt ∉ renderMarkdown caps fsys p [] := by
  unfold renderMarkdown
  cases osReadFile fsys p with
  | error e => simp
  | ok data =>
    simp only
    cases caps.executeErr _ _ <;> simp

theorem fileServer_not_mem_dispatchFile (caps : Capabilities) (fsys : FileSystem)
    (sub p rt : Str) : Event.fileServer rt ∉ dispatchFile caps fsys sub p [] := by
  unfold dispatchFile
  split
  · exact fileServer_not_mem_renderMarkdown caps fsys p rt
  · simp

/-- The fallback on an existing, non-empty tenant whose walk meets no error.  When the walk
passes over every visit (no file matches), the response is `index.md` of the tenant root
rendered if `os.Stat` finds it, and the file server rooted at the tenant root otherwise.
When a file matches, the response is the dispatch of that file alone: the file server is
not called and nothing is written after the dispatch. -/
theorem fallback_without_error (caps : Capabilities) (fsys : FileSystem)
    (servePath : Str) (r : Request)
    (hready : TenantReady fsys (tenantRoot servePath r.Host)) :
    ((∀ x ∈ visits fsys (tenantRoot servePath r.Host),
        passes (subdomainOf r.Host) (requestPath r.Path) x = true) →
      (∀ n, osStat fsys (pathJoin [tenantRoot servePath r.Host, "index.md".toList]) = .ok n →
        handler caps fsys servePath r =
          renderMarkdown caps fsys
            (pathJoin [tenantRoot servePath r.Host, "index.md".toList]) []) ∧
      (∀ e, osStat fsys (pathJoin [tenantRoot servePath r.Host, "index.md".toList]) =
          .error e →
        handler caps fsys servePath r = [.fileServer (tenantRoot servePath r.Host)])) ∧
    (∀ pre v post, visits fsys (tenantRoot servePath r.Host) = pre ++ v :: post →
      (∀ x ∈ pre, passes (subdomainOf r.Host) (requestPath r.Path) x = true) →
      matched (subdomainOf r.Host) (requestPath r.Path) v = true →
      handler caps fsys servePath r =
          dispatchFile caps fsys (subdomainOf r.Host) v.path [] ∧
        ∀ rt, Event.fileServer rt ∉ handler caps fsys servePath r) := by
  constructor
  · intro hvs
    have hh := handler_none caps fsys servePath r hready hvs
    constructor
    · intro n hn
      rw [hh]
      simp only [fallback, hn]
    · intro e he
      rw [hh]
      simp only [fallback, he]
      rfl
  · intro pre v post hvs hpre hv
    have hh := handler_found caps fsys servePath r pre v post hready hvs hpre hv
    refine ⟨hh, fun rt => ?_⟩
    rw [hh]
    exact fileServer_not_mem_dispatchFile caps fsys _ _ rt

/-- A tenant with `about.md` and `index.md`: the request `/nothing` matches no file and is
answered with `index.md` rendered; in the tenant without `index.md` it goes to the file
server; the request `/about` is answered with `about.md` alone. -/
theorem fallback_without_error_example :
    handler exampleCaps (exampleFS "public".toList [aboutMd, indexMd]) "public".toList
        (acmeRequest "/nothing".toList) =
        renderMarkdown exampleCaps (exampleFS "public".toList [aboutMd, indexMd])
          "public/acme/index.md".toList [] ∧
      handler exampleCaps (exampleFS "public".toList [aboutMd, indexMd]) "public".toList
        (acmeRequest "/nothing".toList) =
        [.templateExecute "index".toList "<md># Home".toList] ∧
      handler exampleCaps (exampleFS "public".toList [aboutMd]) "public".toList
        (acmeRequest "/nothing".toList) = [.fileServer "public/acme".toList] ∧
      handler exampleCaps (exampleFS "public".toList [aboutMd, indexMd]) "public".toList
        (acmeRequest "/about".toList) =
        [.templateExecute "about".toList "<md># About\nHello".toList] :=
  ⟨((fallback_without_error exampleCaps (exampleFS "public".toList [aboutMd, indexMd])
      "public".toList (acmeRequest "/nothing".toList)
      ⟨"acme".toList, [aboutMd, indexMd], rfl, List.cons_ne_nil _ _⟩).1 (by decide)).1
      indexMd rfl,
    by decide,
    ((fallback_without_error exampleCaps (exampleFS "public".toList [aboutMd])
      "public".toList (acmeRequest "/nothing".toList)
      ⟨"acme".toList, [aboutMd], rfl, List.cons_ne_nil _ _⟩).1 (by decide)).2
      (.pathError "stat".toList "public/acme/index.md".toList .ENOENT) rfl,
    by decide⟩

/-! ## Paths of the walk -/

theorem stringsJoin_singleton (a sep : Str) : stringsJoin [a] sep = a := by
  simp [stringsJoin, List.intercalate]

theorem stringsJoin_cons_cons (a b : Str) (rest : List Str) (sep : Str) :
    stringsJoin (a :: b :: rest) sep = a ++ sep ++ stringsJoin (b :: rest) sep := by
  simp [stringsJoin, List.intercalate]

theorem stringsJoin_concat (cs : List Str) (hcs : cs ≠ []) (a sep : Str) :
    stringsJoin (cs ++ [a]) sep = stringsJoin cs sep ++ sep ++ a := by
  induction cs with
  | nil => exact absurd rfl hcs
  | cons c rest ih =>
    cases rest with
    | nil => simp [stringsJoin_cons_cons, stringsJoin_singleton]
    | cons d rest =>
      have := ih (List.cons_ne_nil _ _)
      simp only [List.cons_append] at this ⊢
      rw [stringsJoin_cons_cons, this, stringsJoin_cons_cons]
      simp

theorem stringsSplit_noSep (a : Str) (sep : Char) (h : sep ∉ a) : stringsSplit a sep = [a] := by
  induction a with
  | nil => rfl
  | cons c a ih =>
    have hc : c ≠ sep := fun hc => h (hc ▸ List.mem_cons_self _ _)
    have ha : sep ∉ a := fun ha => h (List.mem_cons_of_mem _ ha)
    simp [stringsSplit, hc, ih ha]

theorem stringsSplit_append_sep (a b : Str) (sep : Char) (h : sep ∉ a) :
    stringsSplit (a ++ sep :: b) sep = a :: stringsSplit b sep := by
  induction a with
  | nil => simp [stringsSplit]
  | cons c a ih =>
    have hc : c ≠ sep := fun hc => h (hc ▸ List.mem_cons_self _ _)
    have ha : sep ∉ a := fun ha => h (List.mem_cons_of_mem _ ha)
    simp [stringsSplit, hc, ih ha]

theorem stringsSplit_join (cs : List Str) (hcs : cs ≠ []) (h : ∀ c ∈ cs, '/' ∉ c) :
    stringsSplit (stringsJoin cs ['/']) '/' = cs := by
  induction cs with
  | nil => exact absurd rfl hcs
  | cons c rest ih =>
    cases rest with
    | nil =>
      rw [stringsJoin_singleton]
      exact stringsSplit_noSep c '/' (h c (List.mem_cons_self _ _))
    | cons d rest =>
      rw [stringsJoin_cons_cons, List.append_assoc, List.singleton_append,
        stringsSplit_append_sep _ _ _ (h c (List.mem_cons_self _ _)),
        ih (List.cons_ne_nil _ _) (fun x hx => h x (List.mem_cons_of_mem _ hx))]

theorem validName_iff (n : Str) :
    validName n = true ↔ n ≠ [] ∧ '/' ∉ n ∧ n ≠ ['.'] ∧ n ≠ ['.', '.'] := by
  simp [validName, and_assoc]

theorem foldl_cleanStep_valid (rooted : Bool) (cs : List Str)
    (h : ∀ c ∈ cs, validName c = true) (stack : List Str) :
    cs.foldl (cleanStep rooted) stack = cs.reverse ++ stack := by
  induction cs generalizing stack with
  | nil => rfl
  | cons c rest ih =>
    obtain ⟨h1, _, h3, h4⟩ := (validName_iff c).1 (h c (List.mem_cons_self _ _))
    have hstep : cleanStep rooted stack c = c :: stack := by
      simp [cleanStep, h1, h3, h4]
    rw [List.foldl_cons, hstep, ih (fun x hx => h x (List.mem_cons_of_mem _ hx))]
    simp

theorem stringsJoin_head (cs : List Str) (c : Str) (a : Char) (rest : Str) :
    ∃ t, stringsJoin ((a :: rest) :: cs) c = a :: t := by
  cases cs with
  | nil => exact ⟨rest, by rw [stringsJoin_singleton]⟩
  | cons d ds => exact ⟨_, by rw [stringsJoin_cons_cons]; rfl⟩

/-- `path.Clean` leaves a relative path of valid names as it is. -/
theorem pathClean_join_valid (cs : List Str) (hcs : cs ≠ [])
    (h : ∀ c ∈ cs, validName c = true) :
    pathClean (stringsJoin cs ['/']) = stringsJoin cs ['/'] := by
  cases cs with
  | nil => exact absurd rfl hcs
  | cons c rest =>
    obtain ⟨h1, h2, _, _⟩ := (validName_iff c).1 (h c (List.mem_cons_self _ _))
    cases c with
    | nil => exact absurd rfl h1
    | cons a t =>
      obtain ⟨tl, htl⟩ := stringsJoin_head rest ['/'] a t
      have ha : a ≠ '/' := fun ha => h2 (ha ▸ List.mem_cons_self _ _)
      have hsplit := stringsSplit_join ((a :: t) :: rest) hcs
        (fun x hx => ((validName_iff x).1 (h x hx)).2.1)
      have hne : stringsJoin ((a :: t) :: rest) ['/'] ≠ [] := by rw [htl]; simp
      have hroot : stringsHasPrefix (stringsJoin ((a :: t) :: rest) ['/']) ['/'] = false := by
        have hb : ('/' == a) = false := by simpa using ha.symm
        rw [htl]
        simp [stringsHasPrefix, List.isPrefixOf, hb]
      unfold pathClean
      simp only [hsplit, hne, hroot, if_false, foldl_cleanStep_valid false _ h,
        List.append_nil, List.reverse_reverse, Bool.false_eq_true]

/-- `path.Join` of a relative path of valid names and a valid name appends the name after a
slash. -/
theorem pathJoin_valid (cs : List Str) (hcs : cs ≠ []) (h : ∀ c ∈ cs, validName c = true)
    (name : Str) (hname : validName name = true) :
    pathJoin [stringsJoin cs ['/'], name] = stringsJoin (cs ++ [name]) ['/'] := by
  have hne : stringsJoin cs ['/'] ≠ [] := by
    cases cs with
    | nil => exact absurd rfl hcs
    | cons c rest =>
      obtain ⟨h1, _⟩ := (validName_iff c).1 (h c (List.mem_cons_self _ _))
      cases c with
      | nil => exact absurd rfl h1
      | cons a t =>
        obtain ⟨tl, htl⟩ := stringsJoin_head rest ['/'] a t
        rw [htl]
        simp
  have hall : ∀ c ∈ cs ++ [name], validName c = true := by
    intro c hc
    rcases List.mem_append.1 hc with hc | hc
    · exact h c hc
    · rw [List.mem_singleton.1 hc]
      exact hname
  rw [pathJoin, if_neg hne, stringsJoin_cons_cons, stringsJoin_singleton,
    ← stringsJoin_concat cs hcs, pathClean_join_valid _ (by simp) hall]

mutual
theorem visitsNode_paths : ∀ (n : Node) (cs : List Str), cs ≠ [] →
    (∀ c ∈ cs, validName c = true) → validBelow n = true →
    ∀ v ∈ visitsNode (stringsJoin cs ['/']) n,
      ∃ rel, v.path = stringsJoin (cs ++ rel) ['/'] ∧
        (rel = [] → v.entry = some ⟨n.name, n.IsDir⟩)
  | .file name _ _, cs, _, _, _ => by
    intro v hv
    simp only [visitsNode, List.mem_singleton] at hv
    subst hv
    exact ⟨[], by simp, fun _ => rfl⟩
  | .dir name readErr entries, cs, hcs, hall, hvalid => by
    intro v hv
    simp only [visitsNode] at hv
    rcases List.mem_cons.1 hv with h | h
    · subst h
      exact ⟨[], by simp, fun _ => rfl⟩
    · rcases List.mem_append.1 h with h | h
      · cases readErr with
        | none => simp at h
        | some errno =>
          simp only [List.mem_singleton] at h
          subst h
          exact ⟨[], by simp, fun _ => rfl⟩
      · have hv2 : validEntries entries = true := by simpa [validBelow] using hvalid
        obtain ⟨rel, hne, hp⟩ := visitsEntries_paths entries cs hcs hall hv2 v h
        exact ⟨rel, hp, fun h0 => absurd h0 hne⟩
theorem visitsEntries_paths : ∀ (entries : List Node) (cs : List Str), cs ≠ [] →
    (∀ c ∈ cs, validName c = true) → validEntries entries = true →
    ∀ v ∈ visitsEntries (stringsJoin cs ['/']) entries,
      ∃ rel, rel ≠ [] ∧ v.path = stringsJoin (cs ++ rel) ['/']
  | [], _, _, _, _ => by
    intro v hv
    simp [visitsEntries] at hv
  | n :: rest, cs, hcs, hall, hvalid => by
    intro v hv
    simp only [validEntries, Bool.and_eq_true] at hvalid
    obtain ⟨⟨hname, hbelow⟩, hrest⟩ := hvalid
    rw [visitsEntries] at hv
    rcases List.mem_append.1 hv with h | h
    · rw [pathJoin_valid cs hcs hall n.name hname] at h
      have hall2 : ∀ c ∈ cs ++ [n.name], validName c = true := by
        intro c hc
        rcases List.mem_append.1 hc with hc | hc
        · exact hall c hc
        · rw [List.mem_singleton.1 hc]
          exact hname
      obtain ⟨rel, hp, _⟩ := visitsNode_paths n (cs ++ [n.name]) (by simp) hall2 hbelow v h
      exact ⟨n.name :: rel, List.cons_ne_nil _ _, by rw [hp]; simp⟩
    · exact visitsEntries_paths rest cs hcs hall hrest v h
end

/-! ## The serve root `public` -/

theorem validName_subdomainOf (host : Str) (hs : subdomainOf host ≠ [])
    (hslash : '/' ∉ subdomainOf host) : validName (subdomainOf host) = true := by
  have hdot := dot_not_mem_subdomainOf host
  rw [validName_iff]
  refine ⟨hs, hslash, ?_, ?_⟩
  · intro h
    rw [h] at hdot
    simp at hdot
  · intro h
    rw [h] at hdot
    simp at hdot

theorem tenantRoot_public (host : Str) (hs : subdomainOf host ≠ [])
    (hslash : '/' ∉ subdomainOf host) :
    tenantRoot "public".toList host = stringsJoin ["public".toList, subdomainOf host] ['/'] := by
  have h := pathJoin_valid ["public".toList] (by simp) (by decide) (subdomainOf host)
    (validName_subdomainOf host hs hslash)
  rw [stringsJoin_singleton] at h
  exact h

theorem comparisonPath_public (sub q : Str) :
    comparisonPath sub ("public/".toList ++ sub ++ '/' :: q) = q := by
  unfold comparisonPath
  rw [List.append_assoc, stringsTrimPrefix_append]
  have : sub ++ '/' :: q = (sub ++ ['/']) ++ q := by simp
  rw [this, stringsTrimPrefix_append]

/-- C10: with the serve root `public` and a tenant identifier that is not empty and has no
slash, the tenant root is `public/s`; for every visit of the walk at a path `public/s/q`
the comparison path is `q`, so the match test compares `q` without its extension, and `q`,
with the Request Path; and in a tenant whose entries have valid names every visited file
has such a path, `q` being the names from the tenant root down to the file joined by
slashes. -/
theorem public_serve_root_comparison_path (fsys : FileSystem) (host : Str)
    (hs : subdomainOf host ≠ []) (hslash : '/' ∉ subdomainOf host) :
    tenantRoot "public".toList host = "public/".toList ++ subdomainOf host ∧
      (∀ v ∈ visits fsys (tenantRoot "public".toList host), ∀ q,
        v.path = "public/".toList ++ subdomainOf host ++ '/' :: q →
        comparisonPath (subdomainOf host) v.path = q ∧
          ∀ u, fileMatches (comparisonPath (subdomainOf host) v.path) u =
            (decide (stringsTrimSuffix q (pathExt q) = u) || decide (q = u))) ∧
      (∀ name entries,
        resolve fsys (tenantRoot "public".toList host) = .ok (.dir name none entries) →
        validEntries entries = true →
        ∀ v ∈ visits fsys (tenantRoot "public".toList host), ∀ d, v.entry = some d →
          d.IsDir = false →
          ∃ rel, rel ≠ [] ∧
            v.path = "public/".toList ++ subdomainOf host ++ '/' :: stringsJoin rel ['/']) := by
  have hroot := tenantRoot_public host hs hslash
  refine ⟨?_, ?_, ?_⟩
  · rw [hroot, stringsJoin_cons_cons, stringsJoin_singleton]
    simp
  · intro v _ q hq
    have hc : comparisonPath (subdomainOf host) v.path = q := by
      rw [hq]
      exact comparisonPath_public _ q
    exact ⟨hc, fun u => by rw [hc]; rfl⟩
  · intro name entries hres hvalid v hv d hd hdir
    have hst : osStat fsys (tenantRoot "public".toList host) =
        .ok (.dir name none entries) := by
      unfold osStat
      rw [hres]
    unfold visits at hv
    rw [hst] at hv
    simp only at hv
    rw [hroot] at hv
    have hall : ∀ c ∈ ["public".toList, subdomainOf host], validName c = true := by
      intro c hc
      rcases List.mem_cons.1 hc with rfl | hc
      · decide
      · rw [List.mem_singleton.1 hc]
        exact validName_subdomainOf host hs hslash
    obtain ⟨rel, hp, hrel⟩ := visitsNode_paths (.dir name none entries)
      ["public".toList, subdomainOf host] (by simp) hall (by simpa [validBelow] using hvalid)
      v hv
    have hne : rel ≠ [] := by
      intro h0
      have := hrel h0
      rw [hd] at this
      simp only [Option.some.injEq] at this
      rw [this] at hdir
      simp [Node.IsDir] at hdir
    refine ⟨rel, hne, ?_⟩
    rw [hp]
    cases rel with
    | nil => exact absurd rfl hne
    | cons a rest =>
      simp only [List.cons_append, List.nil_append]
      rw [stringsJoin_cons_cons, stringsJoin_cons_cons]
      simp

/-- C10, witness: the scenario of the specification.  The tenant `acme` under `public`
holds `about.md`; the walk visits it at `public/acme/about.md`, its comparison path is
`about.md`, and the request `/about` to `acme.example.com` is answered with the template on
the title `about`. -/
theorem public_serve_root_comparison_path_witness :
    comparisonPath "acme".toList "public/acme/about.md".toList = "about.md".toList ∧
      fileMatches "about.md".toList (requestPath "/about".toList) = true ∧
      handler exampleCaps (exampleFS "public".toList [aboutMd]) "public".toList
        (acmeRequest "/about".toList) =
        [.templateExecute "about".toList "<md># About\nHello".toList] :=
  ⟨((public_serve_root_comparison_path (exampleFS "public".toList [aboutMd])
      "acme.example.com".toList (by decide) (by decide)).2.1
      (acmeFileVisit "about.md".toList) (by decide) "about.md".toList (by decide)).1,
    by decide, by decide⟩

/-! ## The first match -/

theorem visits_osErr (fsys : FileSystem) (root : Str) : ∀ v ∈ visits fsys root, v.osErr := by
  intro v hv
  unfold visits at hv
  cases hst : osStat fsys root with
  | ok n =>
    rw [hst] at hv
    exact visitsNode_osErr n root v hv
  | error e =>
    rw [hst] at hv
    simp only [List.mem_singleton] at hv
    subst hv
    unfold osStat at hst
    cases hr : resolve fsys root with
    | ok n => rw [hr] at hst; cases hst
    | error x =>
      rw [hr] at hst
      simp only [Except.error.injEq] at hst
      exact Or.inr ⟨_, _, _, congrArg some hst.symm⟩

theorem dispatchCount_fallback (caps : Capabilities) (fsys : FileSystem) (filePath : Str)
    (w : ResponseWriter) :
    dispatchCount (fallback caps fsys filePath w) ≤ dispatchCount w + 1 := by
  unfold fallback
  simp only
  split
  · exact dispatchCount_renderMarkdown caps fsys _ w
  · simp [dispatchCount_append, dispatchCount]

/-- The response of the handler when the walk reports an error before any match: the 500
of the callback, then the fallback. -/
theorem handler_failed (caps : Capabilities) (fsys : FileSystem) (servePath : Str)
    (r : Request) (pre : List Visit) (v : Visit) (post : List Visit) (e : GoError)
    (hready : TenantReady fsys (tenantRoot servePath r.Host))
    (hvs : visits fsys (tenantRoot servePath r.Host) = pre ++ v :: post)
    (hpre : ∀ x ∈ pre, passes (subdomainOf r.Host) (requestPath r.Path) x = true)
    (he : v.err = some e) :
    handler caps fsys servePath r =
      fallback caps fsys (tenantRoot servePath r.Host)
        [.httpError ("Failed to walk directory: ".toList ++ e.Error) 500] := by
  have hmem : v ∈ visits fsys (tenantRoot servePath r.Host) := by
    rw [hvs]
    simp
  have hnr : isRendered (some e) = false := by
    rcases visits_osErr fsys _ v hmem with h | ⟨op, p, errno, h⟩
    · rw [h] at he
      cases he
    · rw [h] at he
      cases he
      exact pathError_not_rendered op p errno
  rw [handler_ready caps fsys servePath r hready, hvs,
    scan_failed caps fsys r _ pre v post e hpre he, afterWalk_not_rendered _ _ _ _ _ hnr]
  rfl

theorem handler_dispatchCount (caps : Capabilities) (fsys : FileSystem) (servePath : Str)
    (r : Request) (hready : TenantReady fsys (tenantRoot servePath r.Host)) :
    dispatchCount (handler caps fsys servePath r) ≤ 1 := by
  rcases scan_decompose (subdomainOf r.Host) (requestPath r.Path)
    (visits fsys (tenantRoot servePath r.Host)) with hall | ⟨pre, v, post, hvs, hpre, hv | ⟨e, he⟩⟩
  · rw [handler_none caps fsys servePath r hready hall]
    exact dispatchCount_fallback caps fsys _ []
  · rw [handler_found caps fsys servePath r pre v post hready hvs hpre hv]
    exact dispatchCount_dispatchFile caps fsys _ _
  · rw [handler_failed caps fsys servePath r pre v post e hready hvs hpre he]
    have := dispatchCount_fallback caps fsys (tenantRoot servePath r.Host)
      [Event.httpError ("Failed to walk directory: ".toList ++ e.Error) 500]
    simpa [dispatchCount] using this

theorem passes_of_not_matched (sub url : Str) (v : Visit) (he : v.err = none)
    (hm : matched sub url v = false) : passes sub url v = true := by
  rcases visit_cases sub url v with h | h | ⟨e, h⟩
  · exact h
  · rw [h] at hm
    cases hm
  · rw [he] at h
    cases h

theorem takeWhile_not_append (p : Visit → Bool) (pre : List Visit) (v : Visit)
    (post : List Visit) (hpre : ∀ a ∈ pre, (!p a) = true) (hv : p v = true) :
    (pre ++ v :: post).takeWhile (fun x => !p x) = pre := by
  induction pre with
  | nil => simp [List.takeWhile_cons, hv]
  | cons a rest ih =>
    have ha := hpre a (List.mem_cons_self _ _)
    simp only [List.cons_append, List.takeWhile_cons, ha, if_true]
    rw [ih (fun x hx => hpre x (List.mem_cons_of_mem _ hx))]

/-- The response of the handler when no error is reported before the first visit that is a
matching file. -/
theorem handler_find (caps : Capabilities) (fsys : FileSystem) (servePath : Str)
    (r : Request) (v : Visit)
    (hready : TenantReady fsys (tenantRoot servePath r.Host))
    (hfind : (visits fsys (tenantRoot servePath r.Host)).find?
      (matched (subdomainOf r.Host) (requestPath r.Path)) = some v)
    (herr : ∀ x ∈ (visits fsys (tenantRoot servePath r.Host)).takeWhile
      (fun x => !matched (subdomainOf r.Host) (requestPath r.Path) x), x.err = none) :
    handler caps fsys servePath r = dispatchFile caps fsys (subdomainOf r.Host) v.path [] := by
  obtain ⟨hv, pre, post, hvs, hpre⟩ := List.find?_eq_some.1 hfind
  rw [hvs, takeWhile_not_append _ pre v post hpre hv] at herr
  refine handler_found caps fsys servePath r pre v post hready hvs (fun x hx => ?_) hv
  have hx2 := hpre x hx
  simp only [Bool.not_eq_true'] at hx2
  exact passes_of_not_matched _ _ x (herr x hx) hx2

/-- C7, as the code has it: for an existing, non-empty tenant, at most one document is sent
per request; when no error is reported before the first visit of the traversal order that
is a matching file, the response is the dispatch of that file alone; stated on the order
`pre ++ v :: post` with every visit of `pre` passed over and `v` a matching file, the walk
returns at `v` with the sentinel, the response is the dispatch of `v` alone, the same for
every continuation `post` of the order (nothing after `v` is visited or tested); and a
directory visited without error never ends the traversal. -/
theorem first_match_is_dispatched (caps : Capabilities) (fsys : FileSystem)
    (servePath : Str) (r : Request)
    (hready : TenantReady fsys (tenantRoot servePath r.Host)) :
    dispatchCount (handler caps fsys servePath r) ≤ 1 ∧
      (∀ v, (visits fsys (tenantRoot servePath r.Host)).find?
          (matched (subdomainOf r.Host) (requestPath r.Path)) = some v →
        (∀ x ∈ (visits fsys (tenantRoot servePath r.Host)).takeWhile
          (fun x => !matched (subdomainOf r.Host) (requestPath r.Path) x), x.err = none) →
        handler caps fsys servePath r =
          dispatchFile caps fsys (subdomainOf r.Host) v.path []) ∧
      (∀ pre v post, visits fsys (tenantRoot servePath r.Host) = pre ++ v :: post →
        (∀ x ∈ pre, passes (subdomainOf r.Host) (requestPath r.Path) x = true) →
        matched (subdomainOf r.Host) (requestPath r.Path) v = true →
        filepathWalkDir fsys (tenantRoot servePath r.Host)
            (walkFn caps fsys r (subdomainOf r.Host)) [] =
            (dispatchFile caps fsys (subdomainOf r.Host) v.path [], some rendered) ∧
          handler caps fsys servePath r =
            dispatchFile caps fsys (subdomainOf r.Host) v.path [] ∧
          ∀ post2 w, scanVisits (walkFn caps fsys r (subdomainOf r.Host))
              (pre ++ v :: post2) w =
            scanVisits (walkFn caps fsys r (subdomainOf r.Host)) (pre ++ [v]) w) ∧
      (∀ (x : Visit) (d : DirEntry) (rest : List Visit) (w : ResponseWriter),
        x.err = none → x.entry = some d → d.IsDir = true →
        scanVisits (walkFn caps fsys r (subdomainOf r.Host)) (x :: rest) w =
          scanVisits (walkFn caps fsys r (subdomainOf r.Host)) rest w) := by
  refine ⟨handler_dispatchCount caps fsys servePath r hready,
    fun v hfind herr => handler_find caps fsys servePath r v hready hfind herr, ?_, ?_⟩
  · intro pre v post hvs hpre hv
    refine ⟨?_, handler_found caps fsys servePath r pre v post hready hvs hpre hv, ?_⟩
    · rw [filepathWalkDir_eq_scan _ _ _ (walkFn_neverSkips caps fsys r _), hvs,
        scan_found caps fsys r _ pre v post hpre hv]
    · intro post2 w
      rw [scan_found caps fsys r _ pre v post2 hpre hv,
        scan_found caps fsys r _ pre v [] hpre hv]
  · intro x d rest w herr hent hdir
    have hp : passes (subdomainOf r.Host) (requestPath r.Path) x = true := by
      simp [passes, herr, hent, hdir]
    exact scan_passes caps fsys r _ [x] rest
      (fun y hy => by rw [List.mem_singleton.1 hy]; exact hp) w

/-- C7, witness: `about.html` and `about.md` share the logical path `about`; the walk meets
`about.html` first and the request `/about` is answered with that file alone. -/
theorem first_match_is_dispatched_witness :
    handler exampleCaps (exampleFS "public".toList [aboutHtml, aboutMd]) "public".toList
        (acmeRequest "/about".toList) = [.serveFile "public/acme/about.html".toList] ∧
      handler exampleCaps (exampleFS "public".toList [aboutHtml, aboutMd]) "public".toList
        (acmeRequest "/about".toList) =
        dispatchFile exampleCaps (exampleFS "public".toList [aboutHtml, aboutMd])
          "acme".toList "public/acme/about.html".toList [] ∧
      dispatchCount (handler exampleCaps (exampleFS "public".toList [aboutHtml, aboutMd])
        "public".toList (acmeRequest "/about".toList)) ≤ 1 :=
  ⟨(((first_match_is_dispatched exampleCaps (exampleFS "public".toList [aboutHtml, aboutMd])
      "public".toList (acmeRequest "/about".toList)
      ⟨"acme".toList, [aboutHtml, aboutMd], rfl, List.cons_ne_nil _ _⟩).2.2.1
      [acmeRootVisit] (acmeFileVisit "about.html".toList) [acmeFileVisit "about.md".toList]
      (by decide) (by decide) (by decide)).2.1).trans (by decide),
    (first_match_is_dispatched exampleCaps (exampleFS "public".toList [aboutHtml, aboutMd])
      "public".toList (acmeRequest "/about".toList)
      ⟨"acme".toList, [aboutHtml, aboutMd], rfl, List.cons_ne_nil _ _⟩).2.1
      (acmeFileVisit "about.html".toList) (by decide) (by decide),
    (first_match_is_dispatched exampleCaps (exampleFS "public".toList [aboutHtml, aboutMd])
      "public".toList (acmeRequest "/about".toList)
      ⟨"acme".toList, [aboutHtml, aboutMd], rfl, List.cons_ne_nil _ _⟩).1⟩

/-- C7, as stated, fails: the tenant holds `zebra.md` after the unreadable directory
`private`.  The first entry of the traversal order that satisfies the match test for
`/zebra` is `zebra.md`, but the walk stops at the error of `private`; `zebra.md` is not
dispatched and the response is the 500 followed by the file server. -/
theorem first_match_lost_after_error :
    (visits (exampleFS "public".toList [privateDir, zebraMd])
        (tenantRoot "public".toList "acme.example.com".toList)).find?
        (matched "acme".toList (requestPath "/zebra".toList)) =
        some (acmeFileVisit "zebra.md".toList) ∧
      handler exampleCaps (exampleFS "public".toList [privateDir, zebraMd]) "public".toList
        (acmeRequest "/zebra".toList) =
        [.httpError
            "Failed to walk directory: open public/acme/private: permission denied".toList 500,
          .fileServer "public/acme".toList] ∧
      dispatchFile exampleCaps (exampleFS "public".toList [privateDir, zebraMd])
        "acme".toList "public/acme/zebra.md".toList [] =
        [.templateExecute "zebra".toList "<md># Zebra".toList] ∧
      ¬ ∀ (caps : Capabilities) (fsys : FileSystem) (servePath : Str) (r : Request)
          (v : Visit), TenantReady fsys (tenantRoot servePath r.Host) →
        (visits fsys (tenantRoot servePath r.Host)).find?
          (matched (subdomainOf r.Host) (requestPath r.Path)) = some v →
        handler caps fsys servePath r =
          dispatchFile caps fsys (subdomainOf r.Host) v.path [] := by
  refine ⟨by decide, by decide, by decide, fun h => ?_⟩
  have h1 := h exampleCaps (exampleFS "public".toList [privateDir, zebraMd])
    "public".toList (acmeRequest "/zebra".toList) (acmeFileVisit "zebra.md".toList)
    ⟨"acme".toList, [privateDir, zebraMd], rfl, List.cons_ne_nil _ _⟩ (by decide)
  revert h1
  decide

/-! ## Where the code departs from the specification -/

/-- C1, on the code: with the serve root `site` the comparison path of `site/acme/about.md`
is the whole path, not `about.md`; the request `/about` matches no file and goes to the
file server. -/
theorem other_serve_root_never_matches :
    comparisonPath "acme".toList "site/acme/about.md".toList = "site/acme/about.md".toList ∧
      visits (exampleFS "site".toList [aboutMd]) (tenantRoot "site".toList
        "acme.example.com".toList) =
        [⟨"site/acme".toList, some ⟨"acme".toList, true⟩, none⟩,
          ⟨"site/acme/about.md".toList, some ⟨"about.md".toList, false⟩, none⟩] ∧
      fileMatches "about.md".toList (requestPath "/about".toList) = true ∧
      handler exampleCaps (exampleFS "site".toList [aboutMd]) "site".toList
        (acmeRequest "/about".toList) = [.fileServer "site/acme".toList] := by
  decide

/-- C2, on the code: the walk reports the unreadable directory `private`; the handler
writes the 500 and then, the error not being the sentinel, goes on to the fallback and
calls the file server on the same response. -/
theorem walk_error_reaches_fallback :
    handler exampleCaps (exampleFS "public".toList [aboutMd, privateDir]) "public".toList
        (acmeRequest "/nothing".toList) =
        [.httpError
            "Failed to walk directory: open public/acme/private: permission denied".toList
            500,
          .fileServer "public/acme".toList] ∧
      handler exampleCaps (exampleFS "public".toList [indexMd, privateDir]) "public".toList
        (acmeRequest "/nothing".toList) =
        [.httpError
            "Failed to walk directory: open public/acme/private: permission denied".toList
            500,
          .templateExecute "index".toList "<md># Home".toList] := by
  decide

/-- C6, on the code: the tenant holds `index.md`, the unreadable directory `private` and
`zebra.md`, in that order.  The request `/zebra` matches `zebra.md`, but the walk stops at
the error of `private` before it reaches the file, and the handler then renders `index.md`
as the fallback: the fallback is taken although the tree holds a matching file. -/
theorem fallback_after_aborted_walk :
    visits (exampleFS "public".toList [indexMd, privateDir, zebraMd])
        (tenantRoot "public".toList "acme.example.com".toList) =
        [acmeRootVisit, acmeFileVisit "index.md".toList,
          ⟨"public/acme/private".toList, some ⟨"private".toList, true⟩, none⟩,
          ⟨"public/acme/private".toList, some ⟨"private".toList, true⟩,
            some (.pathError "open".toList "public/acme/private".toList .EACCES)⟩,
          acmeFileVisit "zebra.md".toList] ∧
      matched "acme".toList (requestPath "/zebra".toList) (acmeFileVisit "zebra.md".toList) =
        true ∧
      handler exampleCaps (exampleFS "public".toList [indexMd, privateDir, zebraMd])
        "public".toList (acmeRequest "/zebra".toList) =
        [.httpError
            "Failed to walk directory: open public/acme/private: permission denied".toList
            500,
          .templateExecute "index".toList "<md># Home".toList] := by
  decide

/-- C8, on the code: the request `//about.md` has the Request Path `/about.md`, which
matches no file; the tenant has no `index.md`, the handler calls the file server, and the
file server opens the cleaned path `/about.md` and sends the bytes of `about.md`. -/
theorem markdown_source_served_raw :
    requestPath "//about.md".toList = "/about.md".toList ∧
      handler exampleCaps (exampleFS "public".toList [aboutMd]) "public".toList
        (acmeRequest "//about.md".toList) = [.fileServer "public/acme".toList] ∧
      httpFileServer (exampleFS "public".toList [aboutMd]) "public/acme".toList
        "//about.md".toList = .content "# About\nHello".toList := by
  decide

/-! ## Missing and empty tenants -/

theorem mem404_renderMarkdown (caps : Capabilities) (fsys : FileSystem) (p body : Str)
    (w : ResponseWriter) (h : Event.httpError body 404 ∈ renderMarkdown caps fsys p w) :
    Event.httpError body 404 ∈ w := by
  unfold renderMarkdown at h
  cases hr : osReadFile fsys p with
  | error e =>
    rw [hr] at h
    simpa using h
  | ok data =>
    rw [hr] at h
    simp only at h
    cases hx : caps.executeErr (stringsTrimSuffix (pathBase p) (pathExt p))
        (caps.markdown data) with
    | none =>
      rw [hx] at h
      simpa using h
    | some e =>
      rw [hx] at h
      simpa using h

theorem mem404_fallback (caps : Capabilities) (fsys : FileSystem) (filePath body : Str)
    (w : ResponseWriter) (h : Event.httpError body 404 ∈ fallback caps fsys filePath w) :
    Event.httpError body 404 ∈ w := by
  unfold fallback at h
  simp only at h
  split at h
  · exact mem404_renderMarkdown caps fsys _ body w h
  · simpa using h

theorem mem404_dispatchFile (caps : Capabilities) (fsys : FileSystem) (sub p body : Str)
    (h : Event.httpError body 404 ∈ dispatchFile caps fsys sub p []) : False := by
  unfold dispatchFile at h
  split at h
  · have := mem404_renderMarkdown caps fsys p body [] h
    simp at this
  · simp at h

/-- On an existing, non-empty tenant the handler writes no 404 of its own. -/
theorem handler_ready_no404 (caps : Capabilities) (fsys : FileSystem) (servePath : Str)
    (r : Request) (hready : TenantReady fsys (tenantRoot servePath r.Host)) (body : Str) :
    Event.httpError body 404 ∉ handler caps fsys servePath r := by
  intro h
  rcases scan_decompose (subdomainOf r.Host) (requestPath r.Path)
    (visits fsys (tenantRoot servePath r.Host)) with hall | ⟨pre, v, post, hvs, hpre, hv | ⟨e, he⟩⟩
  · rw [handler_none caps fsys servePath r hready hall] at h
    have := mem404_fallback caps fsys _ body [] h
    simp at this
  · rw [handler_found caps fsys servePath r pre v post hready hvs hpre hv] at h
    exact mem404_dispatchFile caps fsys _ _ body h
  · rw [handler_failed caps fsys servePath r pre v post e hready hvs hpre he] at h
    have := mem404_fallback caps fsys _ body _ h
    simp at this

/-- C4, as the code has it: when the system reports that the tenant root does not exist
(`no such file or directory`), or the tenant root is a directory that is read without error
and has zero entries, the response is exactly one `http.Error` with status 404 whose body
holds the tenant identifier, and nothing else is written (no walk result, no `index.md`, no
file server); the handler writes a 404 of its own in no other case; and a tenant root that
names a plain file is answered with one `http.Error` with status 500. -/
theorem missing_or_empty_tenant_is_404 (caps : Capabilities) (fsys : FileSystem)
    (servePath : Str) (r : Request) :
    ((resolve fsys (tenantRoot servePath r.Host) = .error .ENOENT ∨
        ∃ name, resolve fsys (tenantRoot servePath r.Host) = .ok (.dir name none [])) →
      ∃ body, handler caps fsys servePath r = [.httpError body 404] ∧
        subdomainOf r.Host <:+: body) ∧
    ((∃ body, Event.httpError body 404 ∈ handler caps fsys servePath r) →
      (resolve fsys (tenantRoot servePath r.Host) = .error .ENOENT ∨
        ∃ name, resolve fsys (tenantRoot servePath r.Host) = .ok (.dir name none []))) ∧
    ((∃ name readErr data,
        resolve fsys (tenantRoot servePath r.Host) = .ok (.file name readErr data)) →
      ∃ body, handler caps fsys servePath r = [.httpError body 500]) := by
  refine ⟨?_, ?_, ?_⟩
  · intro h
    unfold tenantRoot at h
    rcases h with h | ⟨name, h⟩
    · refine ⟨"Site not found: ".toList ++ subdomainOf r.Host, ?_,
        (List.suffix_append _ _).isInfix⟩
      simp [handler, osStat, h, errOf, osIsNotExist]
    · refine ⟨"No files found in site: ".toList ++ subdomainOf r.Host, ?_,
        (List.suffix_append _ _).isInfix⟩
      simp [handler, osStat, osReadDir, h, errOf, osIsNotExist]
  · rintro ⟨body, hmem⟩
    cases hres : resolve fsys (tenantRoot servePath r.Host) with
    | error e =>
      cases e with
      | ENOENT => exact Or.inl rfl
      | ENOTDIR =>
        unfold tenantRoot at hres
        simp [handler, osStat, osReadDir, hres, errOf, osIsNotExist] at hmem
      | EISDIR =>
        unfold tenantRoot at hres
        simp [handler, osStat, osReadDir, hres, errOf, osIsNotExist] at hmem
      | EACCES =>
        unfold tenantRoot at hres
        simp [handler, osStat, osReadDir, hres, errOf, osIsNotExist] at hmem
      | other t =>
        unfold tenantRoot at hres
        simp [handler, osStat, osReadDir, hres, errOf, osIsNotExist] at hmem
    | ok n =>
      cases n with
      | file name readErr data =>
        unfold tenantRoot at hres
        simp [handler, osStat, osReadDir, hres, errOf, osIsNotExist] at hmem
      | dir name readErr entries =>
        cases readErr with
        | some e =>
          unfold tenantRoot at hres
          simp [handler, osStat, osReadDir, hres, errOf, osIsNotExist] at hmem
        | none =>
          cases entries with
          | nil => exact Or.inr ⟨name, rfl⟩
          | cons x xs =>
            exact absurd hmem (handler_ready_no404 caps fsys servePath r
              ⟨name, x :: xs, hres, List.cons_ne_nil _ _⟩ body)
  · rintro ⟨name, readErr, data, h⟩
    unfold tenantRoot at h
    exact ⟨"Failed to read directory: ".toList ++
      (GoError.pathError "readdirent".toList (pathJoin [servePath, subdomainOf r.Host])
        .ENOTDIR).Error, by simp [handler, osStat, osReadDir, h, errOf, osIsNotExist]⟩

/-- C4, witness: no `widgets` directory under the serve root; the request to
`widgets.example.com` is answered 404 with a body naming `widgets`. -/
theorem missing_or_empty_tenant_is_404_witness :
    resolve (exampleFS "public".toList [aboutMd])
        (tenantRoot "public".toList "widgets.example.com".toList) = .error .ENOENT ∧
      handler exampleCaps (exampleFS "public".toList [aboutMd]) "public".toList
        ⟨"widgets.example.com".toList, "/".toList⟩ =
        [.httpError "Site not found: widgets".toList 404] ∧
      ∃ body, handler exampleCaps (exampleFS "public".toList [aboutMd]) "public".toList
          ⟨"widgets.example.com".toList, "/".toList⟩ = [.httpError body 404] ∧
        subdomainOf "widgets.example.com".toList <:+: body :=
  ⟨rfl, by decide,
    (missing_or_empty_tenant_is_404 exampleCaps (exampleFS "public".toList [aboutMd])
      "public".toList ⟨"widgets.example.com".toList, "/".toList⟩).1 (Or.inl rfl)⟩

/-- C4, as stated, fails: the serve root `public` holds the plain file `LICENSE` and no
directory of that name; for the host `LICENSE` there is no tenant root directory, yet
`os.Stat` succeeds, `os.ReadDir` fails, and the response is a 500, not a 404. -/
theorem tenant_root_plain_file_is_500 :
    resolve (exampleServeFS "public".toList [licenseFile])
        (tenantRoot "public".toList "LICENSE".toList) = .ok licenseFile ∧
      licenseFile.IsDir = false ∧
      handler exampleCaps (exampleServeFS "public".toList [licenseFile]) "public".toList
        ⟨"LICENSE".toList, "/".toList⟩ =
        [.httpError
          "Failed to read directory: readdirent public/LICENSE: not a directory".toList 500] ∧
      ¬ ∀ (caps : Capabilities) (fsys : FileSystem) (servePath : Str) (r : Request),
        (∀ name readErr entries,
          resolve fsys (tenantRoot servePath r.Host) ≠ .ok (.dir name readErr entries)) →
        ∃ body, handler caps fsys servePath r = [.httpError body 404] := by
  refine ⟨rfl, rfl, by decide, fun h => ?_⟩
  obtain ⟨body, hb⟩ := h exampleCaps (exampleServeFS "public".toList [licenseFile])
    "public".toList ⟨"LICENSE".toList, "/".toList⟩
    (fun name readErr entries hres => by
      have h0 : resolve (exampleServeFS "public".toList [licenseFile])
          (tenantRoot "public".toList "LICENSE".toList) = .ok licenseFile := rfl
      rw [h0] at hres
      cases hres)
  have hv : handler exampleCaps (exampleServeFS "public".toList [licenseFile])
      "public".toList ⟨"LICENSE".toList, "/".toList⟩ =
      [.httpError
        "Failed to read directory: readdirent public/LICENSE: not a directory".toList 500] := by
    decide
  rw [hv] at hb
  simp at hb

end Prouter
